import Mathlib

/-!
# Cooperative task executor (`source/libs/toolset/tsexecutor.cpp`)

A shallow embedding of `ts::task_executor_c`: the five stage queues, the
per-task flag word, the shared control block `sync`, the worker loop body,
`check_worker`, `add`, `tick` and the destructor.

Granularity.  Every public operation and every iteration of the worker's
inner `while (executing.try_pop(t))` loop is one atomic step; threads
interleave between such steps (`step`, `run`).  A finer interleaving
(`fine_step`, `fine_run`) takes the owner thread's `tick` in parts, so that
the other threads can step between the callback of a results-loop iteration
and the test that follows it; every run of whole calls is one of its runs.
The
lock-free queues are FIFO lists (`push` appends, `try_pop` takes the head).
Caller-supplied callbacks (`result`, `done`, `iterate`) are opaque: they are
recorded in a trace and assumed not to touch the executor or the task's flag
word.

Threads.  The ghost counters `threads_created`, `threads_started` and
`threads_ended` record the calls of `CreateThread`, the threads that have
entered `work` and the threads that have left it.  They decide which worker
steps can be taken; the fields `workers` and `worker_started` of `sync` are
only what the code writes to them.

Machine integers.  `int` values are integers with the 32-bit wrap `to_int32`
applied where the code can leave the range: the clock reading and the wake
deadline, and the subtraction in the constructor.
-/

namespace ts

/-- Identity of a `task_c` object (its address). -/
abbrev TaskId := Nat

/-- Identity of an OS thread. -/
abbrev ThreadId := Nat

/-! ## Task flags -/

@[simp] def f_executing : Nat := 1
@[simp] def f_finished : Nat := 2
@[simp] def f_canceled : Nat := 4
@[simp] def f_result : Nat := 8
@[simp] def f_exec_after_result : Nat := 16
@[simp] def f_sleeping : Nat := 32

/-- Modelled from the spec: `task_c::setflag` (declared in the header, not
in this file) sets the markers of `m` in the flag word. -/
def setflag (flags m : Nat) : Nat := flags ||| m

/-- Modelled from the spec: `task_c::resetflag` (declared in the header)
clears the markers of `m` in the flag word, i.e. `flags & ~m`, written
here as `flags ^ (flags & m)`. -/
def resetflag (flags m : Nat) : Nat := flags ^^^ (flags &&& m)

/-- Modelled from the spec: `task_c::is_flag` (declared in the header)
tests whether a marker of `m` is set.  The code only ever passes a single
marker, for which `(flags & m) != 0` and `(flags & m) == m` agree. -/
def is_flag (flags m : Nat) : Bool := (flags &&& m) != 0

/-- Conversion of a machine integer to the 32-bit signed `int`. -/
def to_int32 (n : Int) : Int := (n + 2 ^ 31) % 2 ^ 32 - 2 ^ 31

/-- The value `task_c::setup_wakeup(t)` stores in `__wake_up_time` when
`timeGetTime()` reads `now`: `timeGetTime() + t`, kept in an `int`. -/
def setup_wakeup (now : Nat) (t : Int) : Int := to_int32 ((now : Int) + t)

/-- The constants `task_c::R_DONE`, `R_CANCEL`, `R_RESULT` and
`R_RESULT_EXCLUSIVE`.  Their values are declared in the header, so they are
parameters of the model. -/
structure result_codes where
  R_DONE : Int
  R_CANCEL : Int
  R_RESULT : Int
  R_RESULT_EXCLUSIVE : Int

/-- The four result codes are non-positive (a positive value is a sleep
request) and pairwise distinct. -/
def result_codes.wf (rc : result_codes) : Prop :=
  rc.R_DONE ≤ 0 ∧ rc.R_CANCEL ≤ 0 ∧ rc.R_RESULT ≤ 0 ∧ rc.R_RESULT_EXCLUSIVE ≤ 0 ∧
  rc.R_DONE ≠ rc.R_CANCEL ∧ rc.R_DONE ≠ rc.R_RESULT ∧ rc.R_DONE ≠ rc.R_RESULT_EXCLUSIVE ∧
  rc.R_CANCEL ≠ rc.R_RESULT ∧ rc.R_CANCEL ≠ rc.R_RESULT_EXCLUSIVE ∧
  rc.R_RESULT ≠ rc.R_RESULT_EXCLUSIVE

instance (rc : result_codes) : Decidable rc.wf := by
  unfold result_codes.wf; infer_instance

/-! ## State -/

/-- A callback invoked by the executor on a task. -/
inductive Callback where
  /-- The call `t->result()`. -/
  | result (t : TaskId)
  /-- The call `t->done(canceled)`. -/
  | done (t : TaskId) (canceled : Bool)
  deriving DecidableEq, Repr

/-- The block guarded by the reader/writer lock `sync`. -/
structure sync_s where
  tasks : Int
  workers : Int
  worker_must : Bool
  worker_started : Bool
  worker_should_stop : Bool
  deriving DecidableEq, Repr

/-- The executor object together with the memory of the task objects it
refers to and three ghost traces (`log`, `iterated`, and the counters of
`CreateThread` and `SetEvent` calls). -/
structure State where
  base_thread_id : ThreadId
  maximum_workers : Int
  sync : sync_s
  executing : List TaskId
  sleeping : List TaskId
  finished : List TaskId
  canceled : List TaskId
  results : List TaskId
  /-- The field `__flags` of every task. -/
  flags : TaskId → Nat
  /-- The field `__wake_up_time` of every task (declared in the header; an
  `int`, like the `curtime` it is compared with). -/
  wake_up_time : TaskId → Int
  /-- Ghost: callbacks invoked so far, oldest first. -/
  log : List Callback
  /-- Ghost: tasks whose `call_iterate` has run, oldest first. -/
  iterated : List TaskId
  /-- Ghost: number of `CreateThread` calls. -/
  threads_created : Nat
  /-- Ghost: number of created threads that have run the prologue of `work`. -/
  threads_started : Nat
  /-- Ghost: number of threads that have run the epilogue of `work` and left. -/
  threads_ended : Nat
  /-- Ghost: number of `SetEvent(evt)` calls. -/
  evt_signals : Nat

/-- The statement `t->setflag(m)`. -/
@[simp] def task_setflag (s : State) (t : TaskId) (m : Nat) : State :=
  { s with flags := Function.update s.flags t (setflag (s.flags t) m) }

/-- The statement `t->resetflag(m)`. -/
@[simp] def task_resetflag (s : State) (t : TaskId) (m : Nat) : State :=
  { s with flags := Function.update s.flags t (resetflag (s.flags t) m) }

/-- Record a callback in the trace. -/
@[simp] def invoke (s : State) (c : Callback) : State :=
  { s with log := s.log ++ [c] }

/-- The statement `SetEvent(evt)`. -/
@[simp] def SetEvent (s : State) : State :=
  { s with evt_signals := s.evt_signals + 1 }

/-- The statement `executing.push(t)`. -/
@[simp] def push_executing (s : State) (t : TaskId) : State :=
  { s with executing := s.executing ++ [t] }

/-- The statement `sleeping.push(t)`. -/
@[simp] def push_sleeping (s : State) (t : TaskId) : State :=
  { s with sleeping := s.sleeping ++ [t] }

/-- The statement `finished.push(t)`. -/
@[simp] def push_finished (s : State) (t : TaskId) : State :=
  { s with finished := s.finished ++ [t] }

/-- The statement `canceled.push(t)`. -/
@[simp] def push_canceled (s : State) (t : TaskId) : State :=
  { s with canceled := s.canceled ++ [t] }

/-- The statement `results.push(t)`. -/
@[simp] def push_results (s : State) (t : TaskId) : State :=
  { s with results := s.results ++ [t] }

/-! ## Constructor -/

/-- The constructor `task_executor_c::task_executor_c()`, run on thread
`self` with `g_cpu_cores` cores.  The subtraction is done in the 32-bit
`int` of the field `maximum_workers`.  All queues are empty; task objects
start with a zero flag word. -/
def task_executor_c (g_cpu_cores : Int) (self : ThreadId) : State :=
  let maximum_workers := to_int32 (g_cpu_cores - 1)
  let maximum_workers := if maximum_workers < 1 then 1 else maximum_workers
  let maximum_workers :=
    if maximum_workers = 1 ∧ g_cpu_cores = 2 then 2 else maximum_workers
  { base_thread_id := self
    maximum_workers := maximum_workers
    sync := { tasks := 0, workers := 0, worker_must := false,
              worker_started := false, worker_should_stop := false }
    executing := [], sleeping := [], finished := [], canceled := [], results := []
    flags := fun _ => 0
    wake_up_time := fun _ => 0
    log := [], iterated := [], threads_created := 0, threads_started := 0
    threads_ended := 0, evt_signals := 0 }

/-! ## Worker -/

/-- The prologue of `task_executor_c::work` (lines 100-103), run by a
thread that `check_worker` created. -/
@[simp] def work_begin (s : State) : State :=
  { s with
    sync := { s.sync with worker_started := false, workers := s.sync.workers + 1 }
    threads_started := s.threads_started + 1 }

/-- The epilogue of `task_executor_c::work` (line 162), after which the
thread is gone. -/
@[simp] def work_end (s : State) : State :=
  { s with
    sync := { s.sync with workers := s.sync.workers - 1 }
    threads_ended := s.threads_ended + 1 }

/-- Modelled from the spec: `task_c::call_iterate` (declared in the header)
runs the task's step, which returns `r`; a positive `r` records the wake
deadline through `setup_wakeup(r)`, the clock reading `now`. -/
def call_iterate (s : State) (t : TaskId) (r : Int) (now : Nat) : State :=
  let s := { s with iterated := s.iterated ++ [t] }
  if r > 0 then { s with wake_up_time := Function.update s.wake_up_time t (setup_wakeup now r) }
  else s

/-- The body of the worker's inner loop (lines 112-154) for the popped task
`t` whose step returns `r`. -/
def work_body (rc : result_codes) (r : Int) (now : Nat) (t : TaskId) (s : State) : State :=
  let s := task_resetflag s t f_executing
  let s := call_iterate s t r now
  if r > 0 then
    push_sleeping (task_setflag s t f_sleeping) t
  else if r = rc.R_DONE then
    push_finished (task_setflag s t f_finished) t
  else if r = rc.R_CANCEL then
    push_canceled (task_setflag s t f_canceled) t
  else if r = rc.R_RESULT then
    let s := task_setflag s t f_executing
    let s :=
      if !is_flag (s.flags t) f_result then
        push_results (task_setflag s t f_result) t
      else s
    push_executing s t
  else if r = rc.R_RESULT_EXCLUSIVE then
    if !is_flag (s.flags t) f_result then
      push_results (task_setflag s t (f_exec_after_result ||| f_result)) t
    else
      push_executing s t
  else
    push_executing (task_setflag s t f_executing) t

/-- One iteration of `while (executing.try_pop(t))` in the worker loop
(lines 110-155); `none` when the queue is empty. -/
def work_iteration (rc : result_codes) (r : Int) (now : Nat) (s : State) : Option State :=
  match s.executing with
  | [] => none
  | t :: rest => some (work_body rc r now t { s with executing := rest })

/-! ## Spawn check -/

/-- The method `task_executor_c::check_worker` (lines 165-175). -/
def check_worker (s : State) : State :=
  if s.sync.worker_must = true ∧ s.sync.workers < min s.maximum_workers s.sync.tasks ∧
      s.sync.worker_started = false then
    { s with
      sync := { s.sync with worker_started := true, worker_must := false }
      threads_created := s.threads_created + 1 }
  else
    { s with sync := { s.sync with worker_must := false } }

/-! ## Drain and submit -/

/-- Body of the loop over `results` in `tick` (lines 208-216). -/
def tick_results_body (s : State) (t : TaskId) : State :=
  let s := task_resetflag s t f_result
  let s := invoke s (Callback.result t)
  if is_flag (s.flags t) f_exec_after_result then
    let s := task_resetflag s t f_exec_after_result
    let s := task_setflag s t f_executing
    SetEvent (push_executing s t)
  else s

/-- The statements of the body of the results loop of `tick` up to and
including the callback (lines 208-209). -/
def tick_results_deliver (s : State) (t : TaskId) : State :=
  invoke (task_resetflag s t f_result) (Callback.result t)

/-- The statements of the body of the results loop of `tick` after the
callback (lines 210-216): the test of `f_exec_after_result` and the
resumption of the task. -/
def tick_results_resume (s : State) (t : TaskId) : State :=
  if is_flag (s.flags t) f_exec_after_result then
    let s := task_resetflag s t f_exec_after_result
    let s := task_setflag s t f_executing
    SetEvent (push_executing s t)
  else s

/-- The loop `while (results.try_pop(t))` of `tick` (lines 206-217). -/
def tick_results (s : State) : State :=
  s.results.foldl tick_results_body { s with results := [] }

/-- Body of the loop over `finished` in `tick` (lines 221-223); the second
component is the counter `finished_tasks`. -/
def tick_finished_body (p : State × Int) (t : TaskId) : State × Int :=
  (invoke (task_resetflag p.1 t f_finished) (Callback.done t false), p.2 + 1)

/-- The loop `while (finished.try_pop(t))` of `tick` (lines 219-224). -/
def tick_finished (p : State × Int) : State × Int :=
  p.1.finished.foldl tick_finished_body ({ p.1 with finished := [] }, p.2)

/-- Body of the loop over `canceled` in `tick` (lines 228-230). -/
def tick_canceled_body (p : State × Int) (t : TaskId) : State × Int :=
  (invoke (task_resetflag p.1 t f_canceled) (Callback.done t true), p.2 + 1)

/-- The loop `while (canceled.try_pop(t))` of `tick` (lines 226-231). -/
def tick_canceled (p : State × Int) : State × Int :=
  p.1.canceled.foldl tick_canceled_body ({ p.1 with canceled := [] }, p.2)

/-- Body of the loop over `sleeping` in `tick` (lines 237-246); the second
component is the temporary array `sltasks`. -/
def tick_sleeping_body (curtime : Int) (p : State × List TaskId) (t : TaskId) :
    State × List TaskId :=
  let s := task_resetflag p.1 t f_sleeping
  if curtime ≥ s.wake_up_time t then
    (SetEvent (push_executing (task_setflag s t f_executing) t), p.2)
  else
    (s, p.2 ++ [t])

/-- Body of the loop over `sltasks` in `tick` (lines 250-251). -/
def tick_sltasks_body (s : State) (x : TaskId) : State :=
  push_sleeping (task_setflag s x f_sleeping) x

/-- The sleeping pass of `tick` (lines 233-252). -/
def tick_sleeping (curtime : Int) (s : State) : State :=
  let p := s.sleeping.foldl (tick_sleeping_body curtime) ({ s with sleeping := [] }, [])
  p.2.foldl tick_sltasks_body p.1

/-- The statement `sync.lock_write()().tasks -= n`. -/
@[simp] def sub_tasks (s : State) (n : Int) : State :=
  { s with sync := { s.sync with tasks := s.sync.tasks - n } }

/-- The part of `add` that runs when stop has been requested (lines 182-184). -/
@[simp] def add_reject (task : TaskId) (s : State) : State :=
  invoke s (Callback.done task true)

/-- The part of `add` between the stop test and the call of `tick`
(lines 186-194). -/
def add_accept (task : TaskId) (s : State) : State :=
  let s := { s with sync := { s.sync with worker_must := true, tasks := s.sync.tasks + 1 } }
  let s := task_setflag s task f_executing
  let s := push_executing s task
  let s := SetEvent s
  check_worker s

/-- The method `task_executor_c::add` (lines 177-196) with its final call of
`tick` passed as `tick_rec`. -/
def add_body (tick_rec : State → Option State) (task : TaskId) (s : State) : Option State :=
  if s.sync.worker_should_stop = true then
    some (add_reject task s)
  else
    tick_rec (add_accept task s)

/-- The statements of `tick` before the re-execute test (lines 206-252) on
the owner thread; the second component is `finished_tasks`. -/
def tick_drain (now : Nat) (s : State) : State × Int :=
  let p := tick_canceled (tick_finished (tick_results s, 0))
  let curtime : Int := to_int32 now
  (tick_sleeping curtime p.1, p.2)

/-- The method `task_executor_c::tick` (lines 198-265) called on thread `self`.
The predicate `reexec` is `sync_s::reexec`, declared in the header.  The
list holds the successive readings of `timeGetTime()`, one for each nested
call of `tick` on the owner thread (`tick` calls `add`, which calls `tick`);
the result is `none` when the nesting needs more readings than the list
holds. -/
def tick (reexec : sync_s → Bool) (self : ThreadId) : List Nat → State → Option State
  | [], s =>
    if self = s.base_thread_id then none else some (sub_tasks s 0)
  | now :: clock, s =>
    if self = s.base_thread_id then
      let p := tick_drain now s
      let r : Option State :=
        if reexec p.1.sync = true then
          match p.1.executing with
          | t :: rest =>
            add_body (tick reexec self clock) t
              (task_resetflag { p.1 with executing := rest } t f_executing)
          | [] => some p.1
        else some p.1
      r.map fun s => sub_tasks s p.2
    else
      some (sub_tasks s 0)

/-- The method `task_executor_c::add` (lines 177-196) called on thread `self`. -/
def add (reexec : sync_s → Bool) (self : ThreadId) (clock : List Nat) (task : TaskId)
    (s : State) : Option State :=
  add_body (tick reexec self clock) task s

/-! ## Interleaving -/

/-- The atomic steps threads can take on a live executor. -/
inductive Action where
  /-- A call of `add(task)` on thread `self`. -/
  | add (self : ThreadId) (clock : List Nat) (task : TaskId)
  /-- A call of `tick()` on thread `self`. -/
  | tick (self : ThreadId) (clock : List Nat)
  /-- A call of `check_worker()`. -/
  | check_worker
  /-- A thread created by `check_worker` runs the prologue of `work`. -/
  | work_begin
  /-- A live worker pops a task whose step returns `r` and routes it. -/
  | work_iteration (r : Int) (now : Nat)
  /-- A live worker leaves `work`. -/
  | work_end

/-- One atomic step; `none` when the step cannot be taken in `s` (every
thread created by `CreateThread` has already started, no started thread is
still running, `executing` is empty) or when the call does not return within
the clock readings given.  Which threads exist is read from the ghost
counters, never from the fields of `sync`: a created thread starts, and a
started thread runs, whatever `worker_started` and `workers` say, so that
what those fields promise has to be proved from the code.  A live worker may
take a step or leave at any time: the real worker leaves only after it has
found `executing` empty, so the model allows every interleaving the code
has.  A call of `add` or `tick` is one step; `fine_step` takes the owner
thread's `tick` in parts. -/
def step (reexec : sync_s → Bool) (rc : result_codes) (s : State) : Action → Option State
  | Action.add self clock task => add reexec self clock task s
  | Action.tick self clock => tick reexec self clock s
  | Action.check_worker => some (check_worker s)
  | Action.work_begin =>
    if s.threads_started < s.threads_created then some (work_begin s) else none
  | Action.work_iteration r now =>
    if s.threads_ended < s.threads_started then work_iteration rc r now s else none
  | Action.work_end =>
    if s.threads_ended < s.threads_started then some (work_end s) else none

/-- A sequence of atomic steps. -/
def run (reexec : sync_s → Bool) (rc : result_codes) : State → List Action → Option State
  | s, [] => some s
  | s, a :: acts => (step reexec rc s a).bind fun s1 => run reexec rc s1 acts

/-- A state of a live executor: reached from a freshly constructed one by
atomic steps. -/
def Reachable (reexec : sync_s → Bool) (rc : result_codes) (s : State) : Prop :=
  ∃ (g_cpu_cores : Int) (owner : ThreadId) (acts : List Action),
    run reexec rc (task_executor_c g_cpu_cores owner) acts = some s

/-! ## Destructor -/

/-- The loops `while (executing.try_pop(t))` of the destructor (lines 28-32
and 49-53). -/
def dtor_executing (s : State) : State :=
  s.executing.foldl
    (fun s t => invoke (task_resetflag s t f_executing) (Callback.done t true))
    { s with executing := [] }

/-- The loop `while (results.try_pop(t))` of the destructor (lines 55-59). -/
def dtor_results (s : State) : State :=
  s.results.foldl
    (fun s t => invoke (task_resetflag s t f_result) (Callback.result t))
    { s with results := [] }

/-- The loop `while (finished.try_pop(t))` of the destructor (lines 61-65). -/
def dtor_finished (s : State) : State :=
  s.finished.foldl
    (fun s t => invoke (task_resetflag s t f_finished) (Callback.done t false))
    { s with finished := [] }

/-- The loop `while (canceled.try_pop(t))` of the destructor (lines 67-71). -/
def dtor_canceled (s : State) : State :=
  s.canceled.foldl
    (fun s t => invoke (task_resetflag s t f_canceled) (Callback.done t true))
    { s with canceled := [] }

/-- The loop `while (sleeping.try_pop(t))` of the destructor (lines 72-76). -/
def dtor_sleeping (s : State) : State :=
  s.sleeping.foldl
    (fun s t => invoke (task_resetflag s t f_sleeping) (Callback.done t true))
    { s with sleeping := [] }

/-- The waiting loop of the destructor (lines 34-46).  While a worker is
live or a created thread has not started, an iteration raises
`worker_should_stop`, signals the event and sleeps; the head of `env` is
what the other threads do during that sleep.  The result is `none` when
`env` ends before the workers are gone. -/
def dtor_wait (reexec : sync_s → Bool) (rc : result_codes) :
    List (List Action) → State → Option State
  | [], s =>
    let s := { s with sync := { s.sync with tasks := 0 } }
    if s.sync.workers ≠ 0 ∨ s.sync.worker_started = true then none else some s
  | acts :: env, s =>
    let s := { s with sync := { s.sync with tasks := 0 } }
    if s.sync.workers ≠ 0 ∨ s.sync.worker_started = true then
      let s := SetEvent { s with sync := { s.sync with worker_should_stop := true } }
      (run reexec rc s acts).bind (dtor_wait reexec rc env)
    else some s

/-- The destructor `task_executor_c::~task_executor_c` (lines 23-79). -/
def destructor (reexec : sync_s → Bool) (rc : result_codes) (env : List (List Action))
    (s : State) : Option State :=
  (dtor_wait reexec rc env (dtor_executing s)).map fun s =>
    dtor_sleeping (dtor_canceled (dtor_finished (dtor_results (dtor_executing s))))

/-! ## Predicates used in the proofs -/

/-- What no loop of `tick` changes. -/
def SameCtl (s s' : State) : Prop :=
  s'.sync = s.sync ∧ s'.maximum_workers = s.maximum_workers ∧
  s'.base_thread_id = s.base_thread_id ∧ s'.iterated = s.iterated ∧
  (s'.threads_created = s.threads_created ∧ s'.threads_started = s.threads_started ∧
    s'.threads_ended = s.threads_ended) ∧
  s'.wake_up_time = s.wake_up_time

/-- What the sleeping pass of `tick` does not change. -/
def SleepFrame (s a : State) : Prop :=
  SameCtl s a ∧ a.log = s.log ∧ a.results = s.results ∧ a.finished = s.finished ∧
  a.canceled = s.canceled ∧
  ∀ u m, (m = f_finished ∨ m = f_canceled ∨ m = f_result ∨ m = f_exec_after_result) →
    is_flag (a.flags u) m = is_flag (s.flags u) m

/-- The field `maximum_workers` keeps the value `M` the constructor gave it,
`worker_started` is set exactly while one created thread has not started
(and there is never more than one), `workers` is the number of threads that
have started and not left, and the threads created and not left stay within
`maximum_workers`. -/
def WorkerBound (M : Int) (s : State) : Prop :=
  s.maximum_workers = M ∧
  s.threads_created = s.threads_started + (if s.sync.worker_started = true then 1 else 0) ∧
  s.threads_ended ≤ s.threads_started ∧
  s.sync.workers = (s.threads_started : Int) - (s.threads_ended : Int) ∧
  (s.threads_created : Int) - (s.threads_ended : Int) ≤ s.maximum_workers

/-- The dedup invariant of `results`: every task has at most one entry
there, and has one exactly when its `f_result` flag is set. -/
def Dedup (s : State) : Prop :=
  ∀ u : TaskId, s.results.count u ≤ 1 ∧ (u ∈ s.results ↔ is_flag (s.flags u) f_result = true)

/-- The caller of the action is not the thread `owner`.  Spawn checks and
the steps of a worker thread carry no caller: `tick` is the only place that
compares thread ids. -/
def Action.off_owner (owner : ThreadId) : Action → Prop
  | Action.add self _ _ => self ≠ owner
  | Action.tick self _ => self ≠ owner
  | _ => True

instance (owner : ThreadId) (a : Action) : Decidable (a.off_owner owner) := by
  cases a <;> simp only [Action.off_owner] <;> infer_instance

/-! ## Interleaving inside `tick`

The owner thread's `tick` in smaller steps, so that the steps of the other
threads can fall between two iterations of its results loop and between the
callback of an iteration and the test that follows it. -/

/-- The statements of `tick` after the results loop and before the
re-execute test (lines 219-252); the second component is `finished_tasks`. -/
def tick_after_results (now : Nat) (s : State) : State × Int :=
  let p := tick_canceled (tick_finished (s, 0))
  let curtime : Int := to_int32 now
  (tick_sleeping curtime p.1, p.2)

/-- The return of a `tick` whose counter is `finished_tasks` (line 264),
followed by the returns of the calls of `tick` that enclose it through
`add` (line 260), each of which runs its own `tasks -= finished_tasks`;
`frames` holds their counters, the innermost first. -/
def tick_return (s : State) (finished_tasks : Int) (frames : List Int) : State :=
  frames.foldl sub_tasks (sub_tasks s finished_tasks)

/-- Where the owner thread stands. -/
inductive OwnerAt where
  /-- Outside `add` and `tick`. -/
  | outside
  /-- In `tick`, at the test of the results loop (line 206); `frames` are the
  counters `finished_tasks` of the enclosing calls of `tick`. -/
  | results_test (frames : List Int)
  /-- In the results loop of `tick`, after the callback `t->result()` of line
  209 and before the test of line 210. -/
  | result_called (t : TaskId) (frames : List Int)
  /-- In `tick`, after the results loop has found `results` empty and before
  the loop over `finished` (line 219). -/
  | results_done (frames : List Int)
  deriving DecidableEq, Repr

/-- The executor together with the position of the owner thread. -/
structure FineState where
  s : State
  owner : OwnerAt

/-- The steps of the finer interleaving. -/
inductive FineAction where
  /-- The owner thread calls `tick()`. -/
  | call_tick
  /-- The owner thread calls `add(task)`. -/
  | call_add (task : TaskId)
  /-- The owner thread pops a task from `results`, clears `f_result` and runs
  the callback (lines 206-209). -/
  | deliver
  /-- The owner thread runs the rest of the iteration (lines 210-216). -/
  | resume
  /-- The owner thread finds `results` empty and leaves the results loop
  (line 206). -/
  | leave
  /-- The owner thread runs `tick` from the loop over `finished` to its
  return or to the nested call of `tick` in `add` (lines 219-264, 177-195);
  `now` is the clock reading of line 234. -/
  | finish (now : Nat)
  /-- A step of a thread other than the owner. -/
  | other (a : Action)

/-- One step of the finer interleaving; `none` when the step cannot be taken. -/
def fine_step (reexec : sync_s → Bool) (rc : result_codes) (x : FineState) :
    FineAction → Option FineState
  | FineAction.call_tick =>
    match x.owner with
    | OwnerAt.outside => some { x with owner := OwnerAt.results_test [] }
    | _ => none
  | FineAction.call_add task =>
    match x.owner with
    | OwnerAt.outside =>
      if x.s.sync.worker_should_stop = true then
        some { x with s := add_reject task x.s }
      else
        some { s := add_accept task x.s, owner := OwnerAt.results_test [] }
    | _ => none
  | FineAction.deliver =>
    match x.owner with
    | OwnerAt.results_test frames =>
      match x.s.results with
      | t :: rest =>
        some { s := tick_results_deliver { x.s with results := rest } t
               owner := OwnerAt.result_called t frames }
      | [] => none
    | _ => none
  | FineAction.resume =>
    match x.owner with
    | OwnerAt.result_called t frames =>
      some { s := tick_results_resume x.s t, owner := OwnerAt.results_test frames }
    | _ => none
  | FineAction.leave =>
    match x.owner with
    | OwnerAt.results_test frames =>
      match x.s.results with
      | [] => some { x with owner := OwnerAt.results_done frames }
      | _ :: _ => none
    | _ => none
  | FineAction.finish now =>
    match x.owner with
    | OwnerAt.results_done frames =>
      let p := tick_after_results now x.s
      if reexec p.1.sync = true then
        match p.1.executing with
        | t :: rest =>
          let s1 := task_resetflag { p.1 with executing := rest } t f_executing
          if s1.sync.worker_should_stop = true then
            some { s := tick_return (add_reject t s1) p.2 frames, owner := OwnerAt.outside }
          else
            some { s := add_accept t s1, owner := OwnerAt.results_test (p.2 :: frames) }
        | [] => some { s := tick_return p.1 p.2 frames, owner := OwnerAt.outside }
      else some { s := tick_return p.1 p.2 frames, owner := OwnerAt.outside }
    | _ => none
  | FineAction.other a =>
    if a.off_owner x.s.base_thread_id then
      (step reexec rc x.s a).map fun s1 => { x with s := s1 }
    else none

/-- A sequence of steps of the finer interleaving. -/
def fine_run (reexec : sync_s → Bool) (rc : result_codes) :
    FineState → List FineAction → Option FineState
  | x, [] => some x
  | x, a :: acts => (fine_step reexec rc x a).bind fun x1 => fine_run reexec rc x1 acts

/-- The step is taken by the owner thread. -/
def FineAction.by_owner : FineAction → Prop
  | FineAction.other _ => False
  | _ => True

/-- The uninterrupted steps of a results loop over `n` entries. -/
def results_loop_steps : Nat → List FineAction
  | 0 => []
  | n + 1 => FineAction.deliver :: FineAction.resume :: results_loop_steps n

/-- The uninterrupted steps of one call of `tick` on the owner thread, from
the test of the results loop over `n` entries to the return or the nested
call. -/
def tick_steps (n : Nat) (now : Nat) : List FineAction :=
  results_loop_steps n ++ [FineAction.leave, FineAction.finish now]

/-! ## Concrete inputs -/

/-- Sample values of the result codes. -/
def sample_codes : result_codes :=
  { R_DONE := 0, R_CANCEL := -1, R_RESULT := -2, R_RESULT_EXCLUSIVE := -3 }

/-- The re-execute predicate that never holds. -/
def no_reexec : sync_s → Bool := fun _ => false

/-- An executor under destruction: one worker is still live and the waiting
loop of the destructor has raised `worker_should_stop`. -/
def stop_requested_sample : State :=
  { task_executor_c 4 0 with
    sync := { tasks := 0, workers := 1, worker_must := false, worker_started := false,
              worker_should_stop := true }
    threads_created := 1, threads_started := 1
    evt_signals := 1 }

/-- An executor with task 3 in `finished`, task 4 in `canceled` and task 5
in `results`. -/
def terminal_sample : State :=
  { task_executor_c 4 0 with
    sync := { tasks := 3, workers := 1, worker_must := false, worker_started := false,
              worker_should_stop := false }
    threads_created := 1, threads_started := 1
    finished := [3], canceled := [4], results := [5], executing := [5]
    flags := fun t => if t = 3 then 2 else if t = 4 then 4 else if t = 5 then 9 else 0 }

/-- Task 7 is submitted on a 4-core host, a worker starts, the task's step
returns `R_RESULT_EXCLUSIVE` and the idle worker leaves. -/
def exclusive_hold_sample : Option State :=
  run no_reexec sample_codes (task_executor_c 4 0)
    [Action.add 0 [0] 7, Action.work_begin, Action.work_iteration (-3) 0, Action.work_end]

/-- Task 7 is submitted on a 4-core host, a worker starts and the task's
step returns `R_RESULT`: the task is in `executing` and in `results`. -/
def result_pending_sample : Option State :=
  run no_reexec sample_codes (task_executor_c 4 0)
    [Action.add 0 [0] 7, Action.work_begin, Action.work_iteration (-2) 0]

/-- Task 7 is submitted on a 4-core host, a worker starts and the task's
step returns `R_RESULT` twice with no drain in between. -/
def result_twice_sample : State :=
  work_body sample_codes (-2) 0 7
    { work_body sample_codes (-2) 0 7
        { work_begin (add_accept 7 (task_executor_c 4 0)) with executing := [] }
      with executing := [] }

/-- An executor on which a thread has been created and has not started, and
a further spawn is requested with two tasks counted. -/
def spawn_pending_sample : State :=
  { add_accept 7 (task_executor_c 4 0) with
    sync := { tasks := 2, workers := 0, worker_must := true, worker_started := true,
              worker_should_stop := false } }

/-- A fresh executor on which a spawn is requested with one task counted. -/
def spawn_requested_sample : State :=
  { task_executor_c 4 0 with
    sync := { tasks := 1, workers := 0, worker_must := true, worker_started := false,
              worker_should_stop := false } }

/-- Task 7 is submitted on a 4-core host, a worker starts, and at clock
reading 2147483548 (100 ms before the signed 32-bit range ends) the task's
step asks for a sleep of 50 ms. -/
def sleep_before_wrap_sample : Option State :=
  run no_reexec sample_codes (task_executor_c 4 0)
    [Action.add 0 [0] 7, Action.work_begin, Action.work_iteration 50 2147483548]

/-- The states of scenario A around task `t`, given the content of
`executing`, `results` and `finished`: the other queues are empty, no
callback has been invoked, stop is not requested, and the task's `f_result`
flag is set exactly when it is in `results`. -/
structure ScenarioA (owner : ThreadId) (t : TaskId) (ex res fin : List TaskId)
    (s : State) : Prop where
  base : s.base_thread_id = owner
  executing : s.executing = ex
  results : s.results = res
  finished : s.finished = fin
  canceled : s.canceled = []
  sleeping : s.sleeping = []
  log : s.log = []
  stop : s.sync.worker_should_stop = false
  maxw : 1 ≤ s.maximum_workers
  tasks : 0 ≤ s.sync.tasks
  flag_result : is_flag (s.flags t) f_result = decide (t ∈ res)
  flag_excl : is_flag (s.flags t) f_exec_after_result = false

/-- The executor right after task 7 has been submitted on the owner thread
of a 4-core host. -/
def submitted_sample : State := add_accept 7 (task_executor_c 4 0)

/-- Task 7 is submitted on a 4-core host, a worker starts, the task's step
returns `R_RESULT` and, before any drain, `R_RESULT_EXCLUSIVE`. -/
def exclusive_after_result_sample : Option State :=
  run no_reexec sample_codes (task_executor_c 4 0)
    [Action.add 0 [0] 7, Action.work_begin, Action.work_iteration (-2) 0,
      Action.work_iteration (-3) 0]

/-- Task 7 is submitted on a 4-core host, a worker starts, and at clock
reading 2147483638 (ten milliseconds before the signed 32-bit range ends)
the task's step asks for a sleep of 100 ms. -/
def sleep_near_wrap_sample : Option State :=
  run no_reexec sample_codes (task_executor_c 4 0)
    [Action.add 0 [0] 7, Action.work_begin, Action.work_iteration 100 2147483638]

/-- The test `curtime >= t->__wake_up_time` of the sleeping pass of `tick`
(line 238), for the wake deadlines `wake`. -/
def is_due (curtime : Int) (wake : TaskId → Int) (t : TaskId) : Bool :=
  decide (curtime ≥ wake t)

/-- The flag word the body of the results loop of `tick` (lines 208-213)
leaves on a task whose flag word was `f`. -/
def result_delivered (f : Nat) : Nat :=
  if is_flag (resetflag f f_result) f_exec_after_result then
    setflag (resetflag (resetflag f f_result) f_exec_after_result) f_executing
  else resetflag f f_result

/-- An executor with task 5 held for an exclusive result and task 6 running
with a result pending. -/
def results_sample : State :=
  { task_executor_c 4 0 with
    sync := { tasks := 2, workers := 1, worker_must := false, worker_started := false,
              worker_should_stop := false }
    threads_created := 1, threads_started := 1
    results := [5, 6], executing := [6]
    flags := fun t => if t = 5 then 24 else if t = 6 then 9 else 0 }

/-- The re-execute predicate that holds while fewer than `B` tasks are
counted as pending. -/
def reexec_below (B : Int) : sync_s → Bool := fun w => decide (w.tasks < B)

/-- Tasks 7, 8 and 9 are submitted on the owner thread of a 4-core host. -/
def three_queued_sample : Option State :=
  run no_reexec sample_codes (task_executor_c 4 0)
    [Action.add 0 [0] 7, Action.add 0 [0] 8, Action.add 0 [0] 9]

/-- The executor after tasks 7, 8 and 9 have been submitted on the owner
thread of a 4-core host. -/
def three_queued_state : State :=
  add_accept 9 (add_accept 8 (add_accept 7 (task_executor_c 4 0)))

/-- The re-execute predicate that holds when tasks are counted as pending
but no worker is live and none is being started. -/
def idle_reexec : sync_s → Bool :=
  fun w => decide (0 < w.tasks) && decide (w.workers = 0) && !w.worker_started

/-- Under `idle_reexec`: task 7 is submitted on a 4-core host, a worker
starts, the task's step returns `R_RESULT_EXCLUSIVE`, the idle worker leaves,
and the owner thread drains. -/
def reexec_fired_sample : Option State :=
  run idle_reexec sample_codes (task_executor_c 4 0)
    [Action.add 0 [0] 7, Action.work_begin, Action.work_iteration (-3) 0, Action.work_end,
      Action.tick 0 [0, 0]]

/-- The run of `reexec_fired_sample` continued: the new worker starts, the
task's step returns `R_DONE`, and the owner thread drains. -/
def reexec_fired_done_sample : Option State :=
  run idle_reexec sample_codes (task_executor_c 4 0)
    [Action.add 0 [0] 7, Action.work_begin, Action.work_iteration (-3) 0, Action.work_end,
      Action.tick 0 [0, 0], Action.work_begin, Action.work_iteration 0 0, Action.tick 0 [0]]

/-- The number of places that hold task `t`: its entries in `executing`,
`sleeping`, `finished` and `canceled`, plus its entries in `results` when
its `f_exec_after_result` flag is set (the task is held for delivery). -/
def places (s : State) (t : TaskId) : Nat :=
  s.executing.count t + s.sleeping.count t + s.finished.count t + s.canceled.count t +
    (if is_flag (s.flags t) f_exec_after_result = true then s.results.count t else 0)

/-- No terminal callback has been invoked on task `t`. -/
def no_done (log : List Callback) (t : TaskId) : Prop :=
  Callback.done t true ∉ log ∧ Callback.done t false ∉ log

instance (log : List Callback) (t : TaskId) : Decidable (no_done log t) := by
  unfold no_done; infer_instance

/-- The tasks passed to `add` by a sequence of steps. -/
def submitted : List Action → List TaskId
  | [] => []
  | Action.add _ _ t :: acts => t :: submitted acts
  | _ :: acts => submitted acts

/-- The placement invariant for the set `S` of tasks submitted so far: stop
is not requested, `results` is deduplicated, a task held for delivery has a
result pending, only submitted tasks have received `done`, and a task is in
exactly one place if it was submitted and has not received `done`, and in
none otherwise. -/
structure Placed (S : TaskId → Prop) (s : State) : Prop where
  stop : s.sync.worker_should_stop = false
  dedup : Dedup s
  excl : ∀ u, is_flag (s.flags u) f_exec_after_result = true →
    is_flag (s.flags u) f_result = true
  done_sub : ∀ u c, Callback.done u c ∈ s.log → S u
  live : ∀ u, S u → no_done s.log u → places s u = 1
  dead : ∀ u, (¬ S u ∨ ¬ no_done s.log u) → places s u = 0

/-! ## Flag arithmetic -/

theorem lor_eq_zero_iff (a b : Nat) : a ||| b = 0 ↔ a = 0 ∧ b = 0 := by
  constructor
  · intro h
    have hb : ∀ i, (a ||| b).testBit i = false := by simp [h]
    constructor
    · apply Nat.eq_of_testBit_eq
      intro i
      have := hb i
      simp only [Nat.testBit_or, Bool.or_eq_false_iff] at this
      simp [this.1]
    · apply Nat.eq_of_testBit_eq
      intro i
      have := hb i
      simp only [Nat.testBit_or, Bool.or_eq_false_iff] at this
      simp [this.2]
  · rintro ⟨rfl, rfl⟩
    rfl

/-- The conjunctions of the flag masks the code combines, evaluated. -/
@[simp] theorem flag_land :
    ((1 &&& 2 : Nat) = 0) ∧ ((1 &&& 4 : Nat) = 0) ∧ ((1 &&& 8 : Nat) = 0) ∧
    ((1 &&& 16 : Nat) = 0) ∧ ((1 &&& 32 : Nat) = 0) ∧ ((2 &&& 2 : Nat) = 2) ∧
    ((2 &&& 4 : Nat) = 0) ∧ ((2 &&& 8 : Nat) = 0) ∧ ((2 &&& 16 : Nat) = 0) ∧
    ((2 &&& 32 : Nat) = 0) ∧ ((4 &&& 2 : Nat) = 0) ∧ ((4 &&& 4 : Nat) = 4) ∧
    ((4 &&& 8 : Nat) = 0) ∧ ((4 &&& 16 : Nat) = 0) ∧ ((4 &&& 32 : Nat) = 0) ∧
    ((8 &&& 2 : Nat) = 0) ∧ ((8 &&& 4 : Nat) = 0) ∧ ((8 &&& 8 : Nat) = 8) ∧
    ((8 &&& 16 : Nat) = 0) ∧ ((8 &&& 32 : Nat) = 0) ∧ ((16 &&& 2 : Nat) = 0) ∧
    ((16 &&& 4 : Nat) = 0) ∧ ((16 &&& 8 : Nat) = 0) ∧ ((16 &&& 16 : Nat) = 16) ∧
    ((16 &&& 32 : Nat) = 0) ∧ ((32 &&& 2 : Nat) = 0) ∧ ((32 &&& 4 : Nat) = 0) ∧
    ((32 &&& 8 : Nat) = 0) ∧ ((32 &&& 16 : Nat) = 0) ∧ ((32 &&& 32 : Nat) = 32) ∧
    ((24 &&& 2 : Nat) = 0) ∧ ((24 &&& 4 : Nat) = 0) ∧ ((24 &&& 8 : Nat) = 8) ∧
    ((24 &&& 16 : Nat) = 16) ∧ ((24 &&& 32 : Nat) = 0) := by
  decide

@[simp] theorem is_flag_setflag (f m m' : Nat) :
    is_flag (setflag f m) m' = (is_flag f m' || decide (m &&& m' ≠ 0)) := by
  rw [Bool.eq_iff_iff]
  simp only [is_flag, setflag, Nat.and_distrib_right, bne_iff_ne, ne_eq, lor_eq_zero_iff,
    Bool.or_eq_true, decide_eq_true_eq]
  tauto

theorem resetflag_and_of_disjoint (f m m' : Nat) (h : m &&& m' = 0) :
    resetflag f m &&& m' = f &&& m' := by
  apply Nat.eq_of_testBit_eq
  intro i
  have hi : (m &&& m').testBit i = false := by simp [h]
  simp only [resetflag, Nat.testBit_and, Nat.testBit_xor] at hi ⊢
  cases hf : f.testBit i <;> cases hm : m.testBit i <;> cases hm' : m'.testBit i <;> simp_all

theorem resetflag_and_self (f m : Nat) : resetflag f m &&& m = 0 := by
  apply Nat.eq_of_testBit_eq
  intro i
  simp only [resetflag, Nat.testBit_and, Nat.testBit_xor, Nat.zero_testBit]
  cases hf : f.testBit i <;> cases hm : m.testBit i <;> simp

@[simp] theorem is_flag_resetflag_of_disjoint (f m m' : Nat) (h : m &&& m' = 0) :
    is_flag (resetflag f m) m' = is_flag f m' := by
  simp [is_flag, resetflag_and_of_disjoint f m m' h]

@[simp] theorem is_flag_resetflag_self (f m : Nat) : is_flag (resetflag f m) m = false := by
  simp [is_flag, resetflag_and_self]

@[simp] theorem is_flag_zero (m : Nat) : is_flag 0 m = false := by
  simp [is_flag]

/-! ## The loops of `tick` -/

theorem foldl_inv {α β : Type} (P : α → Prop) (f : α → β → α)
    (h : ∀ a b, P a → P (f a b)) : ∀ (l : List β) (a : α), P a → P (l.foldl f a) := by
  intro l
  induction l with
  | nil => intro a ha; exact ha
  | cons b l ih => intro a ha; exact ih (f a b) (h a b ha)


theorem SameCtl.trans {a b c : State} (h1 : SameCtl a b) (h2 : SameCtl b c) : SameCtl a c := by
  unfold SameCtl at *
  obtain ⟨h11, h12, h13, h14, h15, h16⟩ := h1
  obtain ⟨h21, h22, h23, h24, h25, h26⟩ := h2
  exact ⟨h21.trans h11, h22.trans h12, h23.trans h13, h24.trans h14,
    ⟨h25.1.trans h15.1, h25.2.1.trans h15.2.1, h25.2.2.trans h15.2.2⟩, h26.trans h16⟩

theorem tick_results_ctl (s : State) : SameCtl s (tick_results s) := by
  unfold tick_results
  refine foldl_inv (fun a => SameCtl s a) tick_results_body ?_ s.results _ ?_
  · intro a t h
    unfold SameCtl at *
    dsimp only [tick_results_body]
    split <;> simpa using h
  · simp [SameCtl]

theorem tick_results_log (s : State) :
    (tick_results s).log = s.log ++ s.results.map Callback.result := by
  unfold tick_results
  have : ∀ (l : List TaskId) (a : State),
      (l.foldl tick_results_body a).log = a.log ++ l.map Callback.result := by
    intro l
    induction l with
    | nil => intro a; simp
    | cons t l ih =>
      intro a
      rw [List.foldl_cons, ih]
      dsimp only [tick_results_body]
      split <;> simp
  rw [this]

theorem tick_results_queues (s : State) :
    (tick_results s).results = [] ∧ (tick_results s).finished = s.finished ∧
    (tick_results s).canceled = s.canceled ∧ (tick_results s).sleeping = s.sleeping := by
  unfold tick_results
  refine foldl_inv (fun a => a.results = [] ∧ a.finished = s.finished ∧
    a.canceled = s.canceled ∧ a.sleeping = s.sleeping) tick_results_body ?_ s.results _ ?_
  · intro a t h
    dsimp only [tick_results_body]
    split <;> simpa using h
  · simp

theorem tick_results_flags (s : State) (u : TaskId) (m : Nat)
    (hm : m = f_finished ∨ m = f_canceled ∨ m = f_sleeping) :
    is_flag ((tick_results s).flags u) m = is_flag (s.flags u) m := by
  unfold tick_results
  refine foldl_inv (fun a => is_flag (a.flags u) m = is_flag (s.flags u) m)
    tick_results_body ?_ s.results _ ?_
  · intro a t h
    dsimp only [tick_results_body]
    rcases hm with rfl | rfl | rfl <;> by_cases hu : u = t <;> split <;>
      simp_all [Function.update_apply]
  · simp

theorem tick_results_flag_result (s : State) (u : TaskId) :
    is_flag ((tick_results s).flags u) f_result =
      (is_flag (s.flags u) f_result && decide (u ∉ s.results)) := by
  unfold tick_results
  have : ∀ (l : List TaskId) (a : State),
      is_flag ((l.foldl tick_results_body a).flags u) f_result =
        (is_flag (a.flags u) f_result && decide (u ∉ l)) := by
    intro l
    induction l with
    | nil => intro a; simp
    | cons t l ih =>
      intro a
      rw [List.foldl_cons, ih]
      dsimp only [tick_results_body]
      by_cases hu : u = t <;> split <;> simp_all [Function.update_apply]
  rw [this]


theorem tick_finished_snd (p : State × Int) :
    (tick_finished p).2 = p.2 + p.1.finished.length := by
  unfold tick_finished
  have : ∀ (l : List TaskId) (q : State × Int),
      (l.foldl tick_finished_body q).2 = q.2 + l.length := by
    intro l
    induction l with
    | nil => intro q; simp
    | cons t l ih =>
      intro q
      rw [List.foldl_cons, ih]
      simp [tick_finished_body]
      ring
  rw [this]

theorem tick_finished_ctl (p : State × Int) : SameCtl p.1 (tick_finished p).1 := by
  unfold tick_finished
  refine foldl_inv (fun a => SameCtl p.1 a.1) tick_finished_body ?_ p.1.finished _ ?_
  · intro a t h
    unfold SameCtl at *
    simpa [tick_finished_body] using h
  · simp [SameCtl]

theorem tick_finished_log (p : State × Int) :
    (tick_finished p).1.log = p.1.log ++ p.1.finished.map (fun t => Callback.done t false) := by
  unfold tick_finished
  have : ∀ (l : List TaskId) (a : State × Int),
      (l.foldl tick_finished_body a).1.log =
        a.1.log ++ l.map (fun t => Callback.done t false) := by
    intro l
    induction l with
    | nil => intro a; simp
    | cons t l ih =>
      intro a
      rw [List.foldl_cons, ih]
      simp [tick_finished_body]
  rw [this]

theorem tick_finished_queues (p : State × Int) :
    (tick_finished p).1.finished = [] ∧ (tick_finished p).1.results = p.1.results ∧
    (tick_finished p).1.canceled = p.1.canceled ∧ (tick_finished p).1.sleeping = p.1.sleeping ∧
    (tick_finished p).1.executing = p.1.executing := by
  unfold tick_finished
  refine foldl_inv (fun a => a.1.finished = [] ∧ a.1.results = p.1.results ∧
    a.1.canceled = p.1.canceled ∧ a.1.sleeping = p.1.sleeping ∧
    a.1.executing = p.1.executing) tick_finished_body ?_ p.1.finished _ ?_
  · intro a t h
    simpa [tick_finished_body] using h
  · simp

theorem tick_finished_flags (p : State × Int) (u : TaskId) (m : Nat)
    (hm : m = f_executing ∨ m = f_canceled ∨ m = f_result ∨ m = f_exec_after_result ∨
      m = f_sleeping) :
    is_flag ((tick_finished p).1.flags u) m = is_flag (p.1.flags u) m := by
  unfold tick_finished
  refine foldl_inv (fun a => is_flag (a.1.flags u) m = is_flag (p.1.flags u) m)
    tick_finished_body ?_ p.1.finished _ ?_
  · intro a t h
    dsimp only [tick_finished_body]
    rcases hm with rfl | rfl | rfl | rfl | rfl <;> by_cases hu : u = t <;>
      simp_all [Function.update_apply]
  · simp

theorem tick_finished_flag_finished (p : State × Int) (u : TaskId) :
    is_flag ((tick_finished p).1.flags u) f_finished =
      (is_flag (p.1.flags u) f_finished && decide (u ∉ p.1.finished)) := by
  unfold tick_finished
  have : ∀ (l : List TaskId) (a : State × Int),
      is_flag ((l.foldl tick_finished_body a).1.flags u) f_finished =
        (is_flag (a.1.flags u) f_finished && decide (u ∉ l)) := by
    intro l
    induction l with
    | nil => intro a; simp
    | cons t l ih =>
      intro a
      rw [List.foldl_cons, ih]
      dsimp only [tick_finished_body]
      by_cases hu : u = t <;> simp_all [Function.update_apply]
  rw [this]

theorem tick_canceled_snd (p : State × Int) :
    (tick_canceled p).2 = p.2 + p.1.canceled.length := by
  unfold tick_canceled
  have : ∀ (l : List TaskId) (q : State × Int),
      (l.foldl tick_canceled_body q).2 = q.2 + l.length := by
    intro l
    induction l with
    | nil => intro q; simp
    | cons t l ih =>
      intro q
      rw [List.foldl_cons, ih]
      simp [tick_canceled_body]
      ring
  rw [this]

theorem tick_canceled_ctl (p : State × Int) : SameCtl p.1 (tick_canceled p).1 := by
  unfold tick_canceled
  refine foldl_inv (fun a => SameCtl p.1 a.1) tick_canceled_body ?_ p.1.canceled _ ?_
  · intro a t h
    unfold SameCtl at *
    simpa [tick_canceled_body] using h
  · simp [SameCtl]

theorem tick_canceled_log (p : State × Int) :
    (tick_canceled p).1.log = p.1.log ++ p.1.canceled.map (fun t => Callback.done t true) := by
  unfold tick_canceled
  have : ∀ (l : List TaskId) (a : State × Int),
      (l.foldl tick_canceled_body a).1.log =
        a.1.log ++ l.map (fun t => Callback.done t true) := by
    intro l
    induction l with
    | nil => intro a; simp
    | cons t l ih =>
      intro a
      rw [List.foldl_cons, ih]
      simp [tick_canceled_body]
  rw [this]

theorem tick_canceled_queues (p : State × Int) :
    (tick_canceled p).1.canceled = [] ∧ (tick_canceled p).1.results = p.1.results ∧
    (tick_canceled p).1.finished = p.1.finished ∧ (tick_canceled p).1.sleeping = p.1.sleeping ∧
    (tick_canceled p).1.executing = p.1.executing := by
  unfold tick_canceled
  refine foldl_inv (fun a => a.1.canceled = [] ∧ a.1.results = p.1.results ∧
    a.1.finished = p.1.finished ∧ a.1.sleeping = p.1.sleeping ∧
    a.1.executing = p.1.executing) tick_canceled_body ?_ p.1.canceled _ ?_
  · intro a t h
    simpa [tick_canceled_body] using h
  · simp

theorem tick_canceled_flags (p : State × Int) (u : TaskId) (m : Nat)
    (hm : m = f_executing ∨ m = f_finished ∨ m = f_result ∨ m = f_exec_after_result ∨
      m = f_sleeping) :
    is_flag ((tick_canceled p).1.flags u) m = is_flag (p.1.flags u) m := by
  unfold tick_canceled
  refine foldl_inv (fun a => is_flag (a.1.flags u) m = is_flag (p.1.flags u) m)
    tick_canceled_body ?_ p.1.canceled _ ?_
  · intro a t h
    dsimp only [tick_canceled_body]
    rcases hm with rfl | rfl | rfl | rfl | rfl <;> by_cases hu : u = t <;>
      simp_all [Function.update_apply]
  · simp

theorem tick_canceled_flag_canceled (p : State × Int) (u : TaskId) :
    is_flag ((tick_canceled p).1.flags u) f_canceled =
      (is_flag (p.1.flags u) f_canceled && decide (u ∉ p.1.canceled)) := by
  unfold tick_canceled
  have : ∀ (l : List TaskId) (a : State × Int),
      is_flag ((l.foldl tick_canceled_body a).1.flags u) f_canceled =
        (is_flag (a.1.flags u) f_canceled && decide (u ∉ l)) := by
    intro l
    induction l with
    | nil => intro a; simp
    | cons t l ih =>
      intro a
      rw [List.foldl_cons, ih]
      dsimp only [tick_canceled_body]
      by_cases hu : u = t <;> simp_all [Function.update_apply]
  rw [this]

theorem tick_sleeping_frame (curtime : Int) (s : State) :
    SleepFrame s (tick_sleeping curtime s) := by
  unfold tick_sleeping
  dsimp only
  refine foldl_inv (fun a => SleepFrame s a) tick_sltasks_body ?_ _ _ ?_
  · intro a x h
    unfold SleepFrame SameCtl at *
    obtain ⟨h1, h2, h3, h4, h5, h6⟩ := h
    refine ⟨by simpa [tick_sltasks_body] using h1, by simpa [tick_sltasks_body] using h2,
      by simpa [tick_sltasks_body] using h3, by simpa [tick_sltasks_body] using h4,
      by simpa [tick_sltasks_body] using h5, ?_⟩
    intro u m hm
    rw [← h6 u m hm]
    rcases hm with rfl | rfl | rfl | rfl <;> by_cases hu : u = x <;>
      simp_all [tick_sltasks_body, Function.update_apply]
  · refine foldl_inv (fun a => SleepFrame s a.1) (tick_sleeping_body curtime) ?_ _ _ ?_
    · intro a t h
      unfold SleepFrame SameCtl at *
      obtain ⟨h1, h2, h3, h4, h5, h6⟩ := h
      dsimp only [tick_sleeping_body]
      split
      · refine ⟨by simpa using h1, by simpa using h2, by simpa using h3, by simpa using h4,
          by simpa using h5, ?_⟩
        intro u m hm
        rw [← h6 u m hm]
        rcases hm with rfl | rfl | rfl | rfl <;> by_cases hu : u = t <;>
          simp_all [Function.update_apply]
      · refine ⟨by simpa using h1, by simpa using h2, by simpa using h3, by simpa using h4,
          by simpa using h5, ?_⟩
        intro u m hm
        rw [← h6 u m hm]
        rcases hm with rfl | rfl | rfl | rfl <;> by_cases hu : u = t <;>
          simp_all [Function.update_apply]
    · simp [SleepFrame, SameCtl]

/-! ## The drain pass as a whole -/

theorem tick_drain_ctl (now : Nat) (s : State) : SameCtl s (tick_drain now s).1 := by
  unfold tick_drain
  dsimp only
  exact (tick_results_ctl s).trans <| (tick_finished_ctl (tick_results s, 0)).trans <|
    (tick_canceled_ctl (tick_finished (tick_results s, 0))).trans
      (tick_sleeping_frame _ _).1

theorem tick_drain_log (now : Nat) (s : State) :
    (tick_drain now s).1.log =
      s.log ++ s.results.map Callback.result ++ s.finished.map (fun t => Callback.done t false)
        ++ s.canceled.map (fun t => Callback.done t true) := by
  unfold tick_drain
  dsimp only
  rw [(tick_sleeping_frame _ _).2.1, tick_canceled_log, tick_finished_log,
    (tick_finished_queues _).2.2.1]
  simp only [tick_results_log, (tick_results_queues s).2.1, (tick_results_queues s).2.2.1]

theorem tick_drain_count (now : Nat) (s : State) :
    (tick_drain now s).2 = (s.finished.length : Int) + s.canceled.length := by
  unfold tick_drain
  dsimp only
  rw [tick_canceled_snd, tick_finished_snd, (tick_finished_queues _).2.2.1]
  simp only [(tick_results_queues s).2.1, (tick_results_queues s).2.2.1]
  ring

theorem tick_drain_queues (now : Nat) (s : State) :
    (tick_drain now s).1.results = [] ∧ (tick_drain now s).1.finished = [] ∧
    (tick_drain now s).1.canceled = [] := by
  unfold tick_drain
  dsimp only
  obtain ⟨-, -, h3, h4, h5, -⟩ := tick_sleeping_frame (to_int32 now)
    (tick_canceled (tick_finished (tick_results s, 0))).1
  rw [h3, h4, h5]
  obtain ⟨c1, c2, c3, -, -⟩ := tick_canceled_queues (tick_finished (tick_results s, 0))
  obtain ⟨d1, d2, -, -, -⟩ := tick_finished_queues (tick_results s, 0)
  rw [c1, c2, c3, d1, d2]
  exact ⟨(tick_results_queues s).1, rfl, rfl⟩

theorem tick_drain_flag_finished (now : Nat) (s : State) (u : TaskId) :
    is_flag ((tick_drain now s).1.flags u) f_finished =
      (is_flag (s.flags u) f_finished && decide (u ∉ s.finished)) := by
  unfold tick_drain
  dsimp only
  rw [(tick_sleeping_frame _ _).2.2.2.2.2 u f_finished (Or.inl rfl),
    tick_canceled_flags _ u f_finished (Or.inr (Or.inl rfl)),
    tick_finished_flag_finished]
  simp only [tick_results_flags s u f_finished (Or.inl rfl), (tick_results_queues s).2.1]

theorem tick_drain_flag_canceled (now : Nat) (s : State) (u : TaskId) :
    is_flag ((tick_drain now s).1.flags u) f_canceled =
      (is_flag (s.flags u) f_canceled && decide (u ∉ s.canceled)) := by
  unfold tick_drain
  dsimp only
  rw [(tick_sleeping_frame _ _).2.2.2.2.2 u f_canceled (Or.inr (Or.inl rfl)),
    tick_canceled_flag_canceled,
    tick_finished_flags _ u f_canceled (Or.inr (Or.inl rfl)),
    (tick_finished_queues _).2.2.1]
  simp only [tick_results_flags s u f_canceled (Or.inr (Or.inl rfl)),
    (tick_results_queues s).2.2.1]

theorem tick_drain_flag_result (now : Nat) (s : State) (u : TaskId) :
    is_flag ((tick_drain now s).1.flags u) f_result =
      (is_flag (s.flags u) f_result && decide (u ∉ s.results)) := by
  unfold tick_drain
  dsimp only
  rw [(tick_sleeping_frame _ _).2.2.2.2.2 u f_result (Or.inr (Or.inr (Or.inl rfl))),
    tick_canceled_flags _ u f_result (Or.inr (Or.inr (Or.inl rfl))),
    tick_finished_flags _ u f_result (Or.inr (Or.inr (Or.inl rfl)))]
  exact tick_results_flag_result s u

/-! ## Unfolding `tick` and `add` -/

theorem tick_off_owner (reexec : sync_s → Bool) (self : ThreadId) (clock : List Nat) (s : State)
    (h : self ≠ s.base_thread_id) : tick reexec self clock s = some s := by
  cases clock <;> simp [tick, h]

theorem tick_owner_cons (reexec : sync_s → Bool) (now : Nat) (clock : List Nat) (s : State) :
    tick reexec s.base_thread_id (now :: clock) s =
      (if reexec (tick_drain now s).1.sync = true then
        match (tick_drain now s).1.executing with
        | t :: rest =>
          add_body (tick reexec s.base_thread_id clock) t
            (task_resetflag { (tick_drain now s).1 with executing := rest } t f_executing)
        | [] => some (tick_drain now s).1
      else some (tick_drain now s).1).map fun s1 => sub_tasks s1 (tick_drain now s).2 := by
  simp [tick]

theorem tick_owner_no_reexec (reexec : sync_s → Bool) (now : Nat) (clock : List Nat) (s : State)
    (h : reexec s.sync = false) :
    tick reexec s.base_thread_id (now :: clock) s =
      some (sub_tasks (tick_drain now s).1 (tick_drain now s).2) := by
  rw [tick_owner_cons, (tick_drain_ctl now s).1, h]
  simp

/-! ## Invariants along the recursion `tick` → `add` → `tick` -/

theorem add_body_inv (P : State → Prop) (tick_rec : State → Option State)
    (h_rec : ∀ s s', P s → tick_rec s = some s' → P s')
    (h_reject : ∀ t s, P s → P (add_reject t s))
    (h_accept : ∀ t s, P s → P (add_accept t s))
    (task : TaskId) (s s' : State) (hs : P s) (h : add_body tick_rec task s = some s') :
    P s' := by
  unfold add_body at h
  split at h
  · cases h
    exact h_reject task s hs
  · exact h_rec _ _ (h_accept task s hs) h

theorem tick_inv (P : State → Prop) (reexec : sync_s → Bool) (self : ThreadId)
    (h_drain : ∀ now s, P s → P (tick_drain now s).1)
    (h_pop : ∀ s t rest, P s → s.executing = t :: rest →
      P (task_resetflag { s with executing := rest } t f_executing))
    (h_reject : ∀ t s, P s → P (add_reject t s))
    (h_accept : ∀ t s, P s → P (add_accept t s))
    (h_sub : ∀ s n, P s → P (sub_tasks s n)) :
    ∀ (clock : List Nat) (s s' : State), P s → tick reexec self clock s = some s' → P s' := by
  intro clock
  induction clock with
  | nil =>
    intro s s' hs h
    by_cases hself : self = s.base_thread_id
    · simp [tick, hself] at h
    · rw [tick_off_owner _ _ _ _ hself] at h
      cases h
      exact hs
  | cons now clock ih =>
    intro s s' hs h
    by_cases hself : self = s.base_thread_id
    · subst hself
      rw [tick_owner_cons] at h
      rw [Option.map_eq_some'] at h
      obtain ⟨s1, h1, rfl⟩ := h
      apply h_sub
      have hd := h_drain now s hs
      split at h1
      · split at h1
        · rename_i t rest hex
          have hb : (tick_drain now s).1.base_thread_id = s.base_thread_id :=
            (tick_drain_ctl now s).2.2.1
          exact add_body_inv P _ (fun a a' ha h' => ih a a' ha h') h_reject h_accept t _ s1
            (h_pop _ t rest hd hex) h1
        · cases h1
          exact hd
      · cases h1
        exact hd
    · rw [tick_off_owner _ _ _ _ hself] at h
      cases h
      exact hs

theorem add_inv (P : State → Prop) (reexec : sync_s → Bool) (self : ThreadId)
    (h_drain : ∀ now s, P s → P (tick_drain now s).1)
    (h_pop : ∀ s t rest, P s → s.executing = t :: rest →
      P (task_resetflag { s with executing := rest } t f_executing))
    (h_reject : ∀ t s, P s → P (add_reject t s))
    (h_accept : ∀ t s, P s → P (add_accept t s))
    (h_sub : ∀ s n, P s → P (sub_tasks s n))
    (clock : List Nat) (task : TaskId) (s s' : State) (hs : P s)
    (h : add reexec self clock task s = some s') : P s' :=
  add_body_inv P _ (tick_inv P reexec self h_drain h_pop h_reject h_accept h_sub clock)
    h_reject h_accept task s s' hs h

theorem step_inv (P : State → Prop) (reexec : sync_s → Bool) (rc : result_codes)
    (h_drain : ∀ now s, P s → P (tick_drain now s).1)
    (h_pop : ∀ s t rest, P s → s.executing = t :: rest →
      P (task_resetflag { s with executing := rest } t f_executing))
    (h_reject : ∀ t s, P s → P (add_reject t s))
    (h_accept : ∀ t s, P s → P (add_accept t s))
    (h_sub : ∀ s n, P s → P (sub_tasks s n))
    (h_check : ∀ s, P s → P (check_worker s))
    (h_begin : ∀ s, P s → s.threads_started < s.threads_created → P (work_begin s))
    (h_iter : ∀ r now s t rest, P s → s.threads_ended < s.threads_started →
      s.executing = t :: rest →
      P (work_body rc r now t { s with executing := rest }))
    (h_end : ∀ s, P s → s.threads_ended < s.threads_started → P (work_end s))
    (s s' : State) (a : Action) (hs : P s) (h : step reexec rc s a = some s') : P s' := by
  cases a with
  | add self clock task =>
    exact add_inv P reexec self h_drain h_pop h_reject h_accept h_sub clock task s s' hs h
  | tick self clock =>
    exact tick_inv P reexec self h_drain h_pop h_reject h_accept h_sub clock s s' hs h
  | check_worker =>
    simp only [step, Option.some.injEq] at h
    subst h
    exact h_check s hs
  | work_begin =>
    simp only [step] at h
    split at h
    · rename_i hst
      cases h
      exact h_begin s hs hst
    · cases h
  | work_iteration r now =>
    simp only [step, work_iteration] at h
    split at h
    · rename_i hw
      split at h
      · cases h
      · rename_i t rest hex
        cases h
        exact h_iter r now s t rest hs hw hex
    · cases h
  | work_end =>
    simp only [step] at h
    split at h
    · rename_i hw
      cases h
      exact h_end s hs hw
    · cases h

theorem run_inv (P : State → Prop) (reexec : sync_s → Bool) (rc : result_codes)
    (h_step : ∀ s s' a, P s → step reexec rc s a = some s' → P s') :
    ∀ (acts : List Action) (s s' : State), P s → run reexec rc s acts = some s' → P s' := by
  intro acts
  induction acts with
  | nil =>
    intro s s' hs h
    simp only [run, Option.some.injEq] at h
    subst h
    exact hs
  | cons a acts ih =>
    intro s s' hs h
    simp only [run] at h
    rw [Option.bind_eq_some] at h
    obtain ⟨s1, h1, h2⟩ := h
    exact ih s1 s' (h_step s s1 a hs h1) h2

/-! ## Frame of the worker body and of `add` -/

theorem work_body_frame (rc : result_codes) (r : Int) (now : Nat) (t : TaskId) (s : State) :
    (work_body rc r now t s).sync = s.sync ∧
    (work_body rc r now t s).maximum_workers = s.maximum_workers ∧
    (work_body rc r now t s).base_thread_id = s.base_thread_id ∧
    (work_body rc r now t s).log = s.log ∧
    (work_body rc r now t s).threads_created = s.threads_created ∧
    (work_body rc r now t s).threads_started = s.threads_started ∧
    (work_body rc r now t s).threads_ended = s.threads_ended ∧
    (work_body rc r now t s).iterated = s.iterated ++ [t] := by
  unfold work_body call_iterate
  dsimp only
  split_ifs <;> simp

theorem work_body_other (rc : result_codes) (r : Int) (now : Nat) (t : TaskId) (s : State)
    (u : TaskId) (hu : u ≠ t) :
    (work_body rc r now t s).flags u = s.flags u ∧
    (work_body rc r now t s).executing.count u = s.executing.count u ∧
    (work_body rc r now t s).sleeping.count u = s.sleeping.count u ∧
    (work_body rc r now t s).finished.count u = s.finished.count u ∧
    (work_body rc r now t s).canceled.count u = s.canceled.count u ∧
    (work_body rc r now t s).results.count u = s.results.count u := by
  unfold work_body call_iterate
  dsimp only
  split_ifs <;>
    simp [List.count_append, List.count_singleton, Function.update_apply, hu, Ne.symm hu]

theorem add_accept_frame (task : TaskId) (s : State) :
    (add_accept task s).maximum_workers = s.maximum_workers ∧
    (add_accept task s).base_thread_id = s.base_thread_id ∧
    (add_accept task s).log = s.log ∧
    (add_accept task s).iterated = s.iterated ∧
    (add_accept task s).results = s.results ∧
    (add_accept task s).executing = s.executing ++ [task] ∧
    (add_accept task s).sync.worker_should_stop = s.sync.worker_should_stop := by
  unfold add_accept check_worker
  dsimp only
  split_ifs <;> simp

theorem add_accept_queues (task : TaskId) (s : State) :
    (add_accept task s).sleeping = s.sleeping ∧ (add_accept task s).finished = s.finished ∧
    (add_accept task s).canceled = s.canceled ∧
    (add_accept task s).wake_up_time = s.wake_up_time := by
  unfold add_accept check_worker
  dsimp only
  split_ifs <;> simp

/-! ## Worker bound -/

theorem check_worker_bound (M : Int) (s : State) (h : WorkerBound M s) :
    WorkerBound M (check_worker s) := by
  unfold WorkerBound at *
  unfold check_worker
  obtain ⟨h1, h2, h3, h4, h5⟩ := h
  by_cases hc : s.sync.worker_must = true ∧ s.sync.workers < min s.maximum_workers s.sync.tasks ∧
      s.sync.worker_started = false
  · rw [if_pos hc]
    obtain ⟨-, hlt, hst⟩ := hc
    have := (lt_min_iff.mp hlt).1
    rw [hst] at h2
    simp only [Bool.false_eq_true, if_false, if_true] at h2 ⊢
    refine ⟨h1, by omega, h3, h4, ?_⟩
    push_cast
    omega
  · rw [if_neg hc]
    exact ⟨h1, h2, h3, h4, h5⟩

theorem step_worker_bound (M : Int) (reexec : sync_s → Bool) (rc : result_codes)
    (s s' : State) (a : Action) (hs : WorkerBound M s) (h : step reexec rc s a = some s') :
    WorkerBound M s' := by
  refine step_inv (WorkerBound M) reexec rc ?_ ?_ ?_ ?_ ?_ ?_ ?_ ?_ ?_ s s' a hs h
  · intro now s hs
    obtain ⟨h1, h2, -, -, ⟨h3, h4, h5⟩, -⟩ := tick_drain_ctl now s
    unfold WorkerBound at *
    rw [h1, h2, h3, h4, h5]
    exact hs
  · intro s t rest hs _
    simpa [WorkerBound] using hs
  · intro t s hs
    simpa [WorkerBound] using hs
  · intro t s hs
    unfold add_accept
    dsimp only
    apply check_worker_bound
    simpa [WorkerBound] using hs
  · intro s n hs
    simpa [WorkerBound] using hs
  · exact check_worker_bound M
  · intro s hs hp
    unfold WorkerBound at *
    obtain ⟨h1, h2, h3, h4, h5⟩ := hs
    by_cases hst : s.sync.worker_started = true
    · simp only [hst, if_true] at h2
      simp only [work_begin, Bool.false_eq_true, if_false]
      refine ⟨h1, by omega, by omega, ?_, h5⟩
      push_cast
      omega
    · simp only [hst, Bool.false_eq_true, if_false] at h2
      exfalso
      omega
  · intro r now s t rest hs _ _
    obtain ⟨h1, h2, -, -, h3, h4, h5, -⟩ :=
      work_body_frame rc r now t { s with executing := rest }
    unfold WorkerBound at *
    rw [h1, h2, h3, h4, h5]
    exact hs
  · intro s hs hl
    unfold WorkerBound at *
    obtain ⟨h1, h2, h3, h4, h5⟩ := hs
    simp only [work_end]
    refine ⟨h1, h2, by omega, ?_, ?_⟩
    · push_cast
      omega
    · push_cast
      omega

theorem constructor_maximum_workers (g_cpu_cores : Int) (owner : ThreadId)
    (hlo : -2 ^ 31 < g_cpu_cores) (hhi : g_cpu_cores < 2 ^ 31) :
    (task_executor_c g_cpu_cores owner).maximum_workers =
      if g_cpu_cores = 2 then 2 else max (g_cpu_cores - 1) 1 := by
  have h : to_int32 (g_cpu_cores - 1) = g_cpu_cores - 1 := by
    unfold to_int32
    omega
  unfold task_executor_c
  dsimp only
  rw [h]
  split_ifs <;> omega

theorem constructor_maximum_workers_pos (g_cpu_cores : Int) (owner : ThreadId) :
    1 ≤ (task_executor_c g_cpu_cores owner).maximum_workers := by
  unfold task_executor_c
  dsimp only
  generalize to_int32 (g_cpu_cores - 1) = m
  split_ifs <;> omega

/-- C6 as stated fails: for the least `int`, `g_cpu_cores = -2147483648`, the
subtraction `g_cpu_cores - 1` wraps and the constructor stores 2147483647,
whereas `max (g_cpu_cores - 1) 1` is 1. -/
theorem C6_counterexample :
    (task_executor_c (-2147483648) 0).maximum_workers = 2147483647 ∧
    (if (-2147483648 : Int) = 2 then (2 : Int) else max (-2147483648 - 1) 1) = 1 ∧
    (task_executor_c (-2147483648) 0).maximum_workers ≠
      (if (-2147483648 : Int) = 2 then (2 : Int) else max (-2147483648 - 1) 1) := by
  have h : (task_executor_c (-2147483648) 0).maximum_workers = 2147483647 := rfl
  refine ⟨h, by decide, ?_⟩
  rw [h]
  decide

/-- C6 (worker bound, amended): for every `int` value of `g_cpu_cores` above
the least one the constructor sets `maximum_workers` to 2 on a two-core host
and to `max (g_cpu_cores - 1) 1` otherwise; and for every `g_cpu_cores`, in
every state reached by submits, spawn checks, thread starts, worker steps,
worker exits and drains, `maximum_workers` keeps its value, at most one
created thread has not started, and there is one exactly when
`worker_started` is set, `workers` is the number of threads that have
started and not left, and `workers` plus one for a thread created and not
yet started stays within `maximum_workers`. -/
theorem C6_worker_bound (reexec : sync_s → Bool) (rc : result_codes) (g_cpu_cores : Int)
    (owner : ThreadId) :
    (-2 ^ 31 < g_cpu_cores → g_cpu_cores < 2 ^ 31 →
      (task_executor_c g_cpu_cores owner).maximum_workers =
        (if g_cpu_cores = 2 then 2 else max (g_cpu_cores - 1) 1)) ∧
      ∀ (acts : List Action) (s : State),
        run reexec rc (task_executor_c g_cpu_cores owner) acts = some s →
        s.maximum_workers = (task_executor_c g_cpu_cores owner).maximum_workers ∧
        s.threads_created =
          s.threads_started + (if s.sync.worker_started = true then 1 else 0) ∧
        s.threads_ended ≤ s.threads_started ∧
        s.sync.workers = (s.threads_started : Int) - (s.threads_ended : Int) ∧
        s.sync.workers + (if s.sync.worker_started = true then 1 else 0) ≤
          s.maximum_workers := by
  refine ⟨constructor_maximum_workers g_cpu_cores owner, ?_⟩
  intro acts s h
  have hW : WorkerBound (task_executor_c g_cpu_cores owner).maximum_workers s := by
    refine run_inv (WorkerBound (task_executor_c g_cpu_cores owner).maximum_workers) reexec rc
      (step_worker_bound _ reexec rc) acts _ s ?_ h
    refine ⟨rfl, rfl, le_refl _, rfl, ?_⟩
    have hpos := constructor_maximum_workers_pos g_cpu_cores owner
    have h0 : (((task_executor_c g_cpu_cores owner).threads_created : Int) -
          ((task_executor_c g_cpu_cores owner).threads_ended : Int)) = 0 := by
      simp [task_executor_c]
    rw [h0]
    omega
  obtain ⟨h1, h2, h3, h4, h5⟩ := hW
  refine ⟨h1, h2, h3, h4, ?_⟩
  rw [h4]
  by_cases hst : s.sync.worker_started = true
  · simp only [hst, if_true] at h2 ⊢
    omega
  · simp only [hst, Bool.false_eq_true, if_false] at h2 ⊢
    omega

/-! ## Dedup invariant of `results` -/

theorem dedup_of_frame (s s' : State) (hr : s'.results = s.results)
    (hf : ∀ u, is_flag (s'.flags u) f_result = is_flag (s.flags u) f_result)
    (h : Dedup s) : Dedup s' := by
  intro u
  rw [hr, hf]
  exact h u

theorem add_accept_flags (task : TaskId) (s : State) :
    (add_accept task s).flags =
      Function.update s.flags task (setflag (s.flags task) f_executing) := by
  unfold add_accept check_worker
  dsimp only
  split_ifs <;> simp

theorem check_worker_frame (s : State) :
    (check_worker s).flags = s.flags ∧ (check_worker s).results = s.results ∧
    (check_worker s).executing = s.executing ∧ (check_worker s).log = s.log ∧
    (check_worker s).iterated = s.iterated ∧
    (check_worker s).base_thread_id = s.base_thread_id := by
  unfold check_worker
  split_ifs <;> simp

theorem work_body_dedup (rc : result_codes) (r : Int) (now : Nat) (t : TaskId)
    (rest : List TaskId) (s : State) (h : Dedup s) :
    Dedup (work_body rc r now t { s with executing := rest }) := by
  have hcount : is_flag (s.flags t) 8 = false → List.count t s.results = 0 := by
    intro hf
    rw [List.count_eq_zero]
    intro hmem
    have := ((h t).2.mp hmem)
    simp only [f_result] at this
    rw [hf] at this
    cases this
  unfold work_body call_iterate
  dsimp only
  split_ifs <;> intro u <;> have hu := h u <;> by_cases hut : u = t <;>
    simp_all [Function.update_apply, List.count_append, List.count_singleton]

theorem step_dedup (reexec : sync_s → Bool) (rc : result_codes)
    (s s' : State) (a : Action) (hs : Dedup s) (h : step reexec rc s a = some s') :
    Dedup s' := by
  refine step_inv Dedup reexec rc ?_ ?_ ?_ ?_ ?_ ?_ ?_ ?_ ?_ s s' a hs h
  · intro now s hs u
    rw [(tick_drain_queues now s).1, tick_drain_flag_result]
    have := (hs u).2
    simp only [f_result] at this ⊢
    by_cases hf : is_flag (s.flags u) 8 = true
    · simp [hf, this.mpr hf]
    · simp [hf]
  · intro s t rest hs _
    refine dedup_of_frame s _ rfl ?_ hs
    intro u
    by_cases hut : u = t <;> simp [Function.update_apply, hut]
  · intro t s hs
    exact dedup_of_frame s _ rfl (fun _ => rfl) hs
  · intro t s hs
    refine dedup_of_frame s _ (add_accept_frame t s).2.2.2.2.1 ?_ hs
    intro u
    rw [add_accept_flags]
    by_cases hut : u = t <;> simp [Function.update_apply, hut]
  · intro s n hs
    exact dedup_of_frame s _ rfl (fun _ => rfl) hs
  · intro s hs
    refine dedup_of_frame s _ (check_worker_frame s).2.1 ?_ hs
    intro u
    rw [(check_worker_frame s).1]
  · intro s hs _
    exact dedup_of_frame s _ rfl (fun _ => rfl) hs
  · intro r now s t rest hs _ _
    exact work_body_dedup rc r now t rest s hs
  · intro s hs _
    exact dedup_of_frame s _ rfl (fun _ => rfl) hs

/-- C3 (dedup invariant): in every state reached from a freshly constructed
executor by submits, worker steps with arbitrary result codes and drains,
each task has at most one entry in `results`, and it has one exactly when
its `f_result` flag is set. -/
theorem C3_results_dedup (reexec : sync_s → Bool) (rc : result_codes) (s : State)
    (h : Reachable reexec rc s) (t : TaskId) :
    s.results.count t ≤ 1 ∧ (t ∈ s.results ↔ is_flag (s.flags t) f_result = true) := by
  obtain ⟨cores, owner, acts, hrun⟩ := h
  refine run_inv Dedup reexec rc (step_dedup reexec rc) acts _ s ?_ hrun t
  intro u
  simp [task_executor_c]

/-! ## Claims about single operations -/

/-- C7 (submit after stop): with `worker_should_stop` set, `add` returns at
once having invoked `done(true)` on the task exactly once; every other part
of the state (queues, flags, `tasks`, `worker_must`, the counters of created
threads and event signals) is unchanged. -/
theorem C7_add_after_stop (reexec : sync_s → Bool) (self : ThreadId) (clock : List Nat)
    (task : TaskId) (s : State) (h : s.sync.worker_should_stop = true) :
    add reexec self clock task s =
      some { s with log := s.log ++ [Callback.done task true] } := by
  simp [add, add_body, h]

/-- Witness of C7 on an executor under destruction, submitting task 5 from thread 1. -/
theorem C7_add_after_stop_witness :
    stop_requested_sample.sync.worker_should_stop = true ∧
    add no_reexec 1 [] 5 stop_requested_sample =
      some { stop_requested_sample with
        log := stop_requested_sample.log ++ [Callback.done 5 true] } :=
  ⟨rfl, C7_add_after_stop no_reexec 1 [] 5 stop_requested_sample rfl⟩

/-- C9 (drain off the owner thread): `tick` called on a thread other than
`base_thread_id` returns the state it was given, so queues, flags, control
block and callback trace are all unchanged. -/
theorem C9_tick_off_owner_noop (reexec : sync_s → Bool) (self : ThreadId) (clock : List Nat)
    (s : State) (h : self ≠ s.base_thread_id) : tick reexec self clock s = some s :=
  tick_off_owner reexec self clock s h

/-- Witness of C9: thread 1 calls `tick` on an executor owned by thread 0 whose queues are not empty. -/
theorem C9_tick_off_owner_noop_witness :
    (1 : ThreadId) ≠ terminal_sample.base_thread_id ∧
    tick no_reexec 1 [] terminal_sample = some terminal_sample :=
  ⟨by decide, C9_tick_off_owner_noop no_reexec 1 [] terminal_sample (by decide)⟩

/-- C10 (terminal delivery in drain): when the re-execute condition is
false, `tick` on the owner thread returns; the callbacks it invokes are
`result` on the entries of `results`, then `done(false)` once on each entry
of `finished`, then `done(true)` once on each entry of `canceled`; the
`f_finished` and `f_canceled` flags of those tasks are clear afterwards,
both queues are empty, and `tasks` has dropped by the number of entries the
two queues held. -/
theorem C10_tick_terminal_delivery (reexec : sync_s → Bool) (now : Nat) (clock : List Nat)
    (s : State) (h : reexec s.sync = false) :
    ∃ s', tick reexec s.base_thread_id (now :: clock) s = some s' ∧
      s'.log = s.log ++ s.results.map Callback.result
        ++ s.finished.map (fun t => Callback.done t false)
        ++ s.canceled.map (fun t => Callback.done t true) ∧
      (∀ t ∈ s.finished, is_flag (s'.flags t) f_finished = false) ∧
      (∀ t ∈ s.canceled, is_flag (s'.flags t) f_canceled = false) ∧
      s'.finished = [] ∧ s'.canceled = [] ∧
      s'.sync.tasks = s.sync.tasks - ((s.finished.length : Int) + s.canceled.length) := by
  refine ⟨_, tick_owner_no_reexec reexec now clock s h, ?_, ?_, ?_, ?_, ?_, ?_⟩
  · simpa using tick_drain_log now s
  · intro t ht
    have := tick_drain_flag_finished now s t
    simpa [ht] using this
  · intro t ht
    have := tick_drain_flag_canceled now s t
    simpa [ht] using this
  · simpa using (tick_drain_queues now s).2.1
  · simpa using (tick_drain_queues now s).2.2
  · simp only [sub_tasks, tick_drain_count, (tick_drain_ctl now s).1]

/-- Witness of C10 on an executor with one finished, one canceled and one result-pending task. -/
theorem C10_tick_terminal_delivery_witness :
    no_reexec terminal_sample.sync = false ∧
    ∃ s', tick no_reexec terminal_sample.base_thread_id (10 :: []) terminal_sample = some s' ∧
      s'.log = terminal_sample.log ++ terminal_sample.results.map Callback.result
        ++ terminal_sample.finished.map (fun t => Callback.done t false)
        ++ terminal_sample.canceled.map (fun t => Callback.done t true) ∧
      (∀ t ∈ terminal_sample.finished, is_flag (s'.flags t) f_finished = false) ∧
      (∀ t ∈ terminal_sample.canceled, is_flag (s'.flags t) f_canceled = false) ∧
      s'.finished = [] ∧ s'.canceled = [] ∧
      s'.sync.tasks = terminal_sample.sync.tasks -
        ((terminal_sample.finished.length : Int) + terminal_sample.canceled.length) :=
  ⟨rfl, C10_tick_terminal_delivery no_reexec 10 [] terminal_sample rfl⟩

theorem step_log_off_owner (reexec : sync_s → Bool) (rc : result_codes) (s s' : State)
    (a : Action) (hoff : a.off_owner s.base_thread_id) (h : step reexec rc s a = some s') :
    s'.log = s.log ∨
      ∃ self clock task, a = Action.add self clock task ∧
        s.sync.worker_should_stop = true ∧ s'.log = s.log ++ [Callback.done task true] := by
  cases a with
  | add self clock task =>
    simp only [Action.off_owner] at hoff
    simp only [step, add, add_body] at h
    split at h
    · rename_i hstop
      cases h
      exact Or.inr ⟨self, clock, task, rfl, hstop, rfl⟩
    · rw [tick_off_owner] at h
      · cases h
        exact Or.inl (add_accept_frame task s).2.2.1
      · rw [(add_accept_frame task s).2.1]
        exact hoff
  | tick self clock =>
    simp only [Action.off_owner] at hoff
    simp only [step] at h
    rw [tick_off_owner _ _ _ _ hoff] at h
    cases h
    exact Or.inl rfl
  | check_worker =>
    simp only [step, Option.some.injEq] at h
    subst h
    exact Or.inl (check_worker_frame s).2.2.2.1
  | work_begin =>
    simp only [step] at h
    split at h
    · cases h
      exact Or.inl rfl
    · cases h
  | work_iteration r now =>
    simp only [step, work_iteration] at h
    split at h
    · split at h
      · cases h
      · cases h
        exact Or.inl (work_body_frame rc r now _ _).2.2.2.1
    · cases h
  | work_end =>
    simp only [step] at h
    split at h
    · cases h
      exact Or.inl rfl
    · cases h

/-- C8 as stated fails: on an executor whose stop flag is raised, `add`
called from thread 1, which is not the owner thread 0, invokes `done(true)`. -/
theorem C8_counterexample :
    ¬ ∀ (reexec : sync_s → Bool) (rc : result_codes) (s s' : State) (a : Action),
        a.off_owner s.base_thread_id → step reexec rc s a = some s' → s'.log = s.log := by
  intro hall
  have h := hall no_reexec sample_codes stop_requested_sample
    { stop_requested_sample with log := [Callback.done 5 true] } (Action.add 1 [] 5)
    (by decide) rfl
  exact absurd h (by decide)

/-- C8 (callbacks only on the owner thread, amended): an operation other
than the destructor that is called on a thread different from the owner
thread invokes no callback, except that `add` on an executor whose stop flag
is raised invokes `done(true)` on the submitted task, on the calling thread. -/
theorem C8_callbacks_off_owner (reexec : sync_s → Bool) (rc : result_codes) (s s' : State)
    (a : Action) (hoff : a.off_owner s.base_thread_id) (h : step reexec rc s a = some s') :
    s'.log = s.log ∨
      ∃ self clock task, a = Action.add self clock task ∧
        s.sync.worker_should_stop = true ∧ s'.log = s.log ++ [Callback.done task true] :=
  step_log_off_owner reexec rc s s' a hoff h

/-- Witness of C8: thread 1 calls `tick` on an executor owned by thread 0. -/
theorem C8_callbacks_off_owner_witness :
    (Action.tick 1 []).off_owner terminal_sample.base_thread_id ∧
    step no_reexec sample_codes terminal_sample (Action.tick 1 []) = some terminal_sample ∧
    (terminal_sample.log = terminal_sample.log ∨
      ∃ self clock task, Action.tick 1 [] = Action.add self clock task ∧
        terminal_sample.sync.worker_should_stop = true ∧
        terminal_sample.log = terminal_sample.log ++ [Callback.done task true]) :=
  ⟨by decide, rfl,
    C8_callbacks_off_owner no_reexec sample_codes terminal_sample terminal_sample
      (Action.tick 1 []) (by decide) rfl⟩

/-! ## The destructor on concrete runs -/

/-- C1 (shutdown completeness) fails on the code: task 7 was submitted, its
step returned `R_RESULT_EXCLUSIVE` and the worker left, so the task sits in
`results` only, with `f_result` and `f_exec_after_result` set, no worker is
live and no thread is being started.  The destructor then returns with all
five queues empty, but the only callback it has invoked is `result` on
task 7: the task never receives `done`. -/
theorem C1_destructor_skips_exclusive_hold :
    exclusive_hold_sample.map (fun s =>
        (s.executing, s.sleeping, s.finished, s.canceled, s.results, s.flags 7,
          s.sync.workers, s.sync.worker_started, s.log)) =
      some ([], [], [], [], [7], 24, 0, false, []) ∧
    (exclusive_hold_sample.bind (destructor no_reexec sample_codes [])).map (fun s =>
        (s.executing, s.sleeping, s.finished, s.canceled, s.results, s.log)) =
      some ([], [], [], [], [], [Callback.result 7]) :=
  ⟨rfl, rfl⟩

/-- C2 (terminal callback last) fails on the code: task 7 was submitted and
its step returned `R_RESULT`, so it is in `executing` and in `results`.  The
destructor cancels it from `executing` first, waits for the worker to leave,
and then delivers the pending result: `result` is invoked after `done`. -/
theorem C2_destructor_result_after_done :
    result_pending_sample.map (fun s => (s.executing, s.results, s.log)) =
      some ([7], [7], []) ∧
    (result_pending_sample.bind
        (destructor no_reexec sample_codes [[Action.work_end]])).map (fun s => s.log) =
      some [Callback.done 7 true, Callback.result 7] := by
  decide

/-! ## Scenario A -/

theorem run_append (reexec : sync_s → Bool) (rc : result_codes) (l1 l2 : List Action)
    (s : State) :
    run reexec rc s (l1 ++ l2) = (run reexec rc s l1).bind fun s1 => run reexec rc s1 l2 := by
  induction l1 generalizing s with
  | nil => simp [run]
  | cons a l1 ih =>
    simp only [List.cons_append, run]
    cases step reexec rc s a with
    | none => simp
    | some s1 => simp [ih]

theorem tick_drain_idle (now : Nat) (s : State) (h1 : s.results = []) (h2 : s.finished = [])
    (h3 : s.canceled = []) (h4 : s.sleeping = []) : tick_drain now s = (s, 0) := by
  cases s
  simp only at h1 h2 h3 h4
  subst h1 h2 h3 h4
  simp [tick_drain, tick_results, tick_finished, tick_canceled, tick_sleeping]

theorem scenario_accept (owner : ThreadId) (t : TaskId) (s : State)
    (h : ScenarioA owner t [] [] [] s) (hw : s.sync.workers = 0)
    (hle : s.threads_started ≤ s.threads_created)
    (hp : s.sync.worker_started = true → s.threads_started < s.threads_created) :
    ScenarioA owner t [t] [] [] (add_accept t s) ∧ (add_accept t s).sync.workers = 0 ∧
      (add_accept t s).threads_started < (add_accept t s).threads_created := by
  obtain ⟨h1, h2, h3, h4, h5, h6, h7, h8, h9, h10, h11, h12⟩ := h
  unfold add_accept check_worker
  dsimp only
  by_cases hst : s.sync.worker_started = true
  · rw [if_neg (by simp [hst])]
    refine ⟨⟨h1, by simp [h2], h3, h4, h5, h6, h7, h8, h9, by simp; omega, ?_, ?_⟩, hw, hp hst⟩
    · simpa using h11
    · simpa using h12
  · rw [if_pos (by
      simp only [SetEvent, push_executing, task_setflag, true_and]
      refine ⟨?_, by simpa using hst⟩
      rw [hw]
      exact lt_min (by omega) (by omega))]
    refine ⟨⟨h1, by simp [h2], h3, h4, h5, h6, h7, h8, h9, by simp; omega, ?_, ?_⟩, hw,
      Nat.lt_succ_of_le hle⟩
    · simpa using h11
    · simpa using h12

theorem scenario_tick (reexec : sync_s → Bool) (self owner : ThreadId) (t : TaskId) :
    ∀ (clock : List Nat) (s s' : State),
      ScenarioA owner t [t] [] [] s → s.sync.workers = 0 →
      s.threads_started < s.threads_created →
      tick reexec self clock s = some s' →
      ScenarioA owner t [t] [] [] s' ∧ s'.sync.workers = 0 ∧
        s'.threads_started < s'.threads_created := by
  intro clock
  induction clock with
  | nil =>
    intro s s' hs hw hst h
    by_cases hself : self = s.base_thread_id
    · simp [tick, hself] at h
    · rw [tick_off_owner _ _ _ _ hself] at h
      cases h
      exact ⟨hs, hw, hst⟩
  | cons now clock ih =>
    intro s s' hs hw hst h
    by_cases hself : self = s.base_thread_id
    · subst hself
      rw [tick_owner_cons, tick_drain_idle now s hs.results hs.finished hs.canceled hs.sleeping,
        Option.map_eq_some'] at h
      obtain ⟨s1, h1, rfl⟩ := h
      have key : ScenarioA owner t [t] [] [] s1 ∧ s1.sync.workers = 0 ∧
          s1.threads_started < s1.threads_created := by
        simp only [hs.executing] at h1
        split at h1
        · unfold add_body at h1
          rw [if_neg (by simp [hs.stop])] at h1
          have hidle : ScenarioA owner t [] [] []
              (task_resetflag { s with executing := [] } t f_executing) := by
            obtain ⟨h1, h2, h3, h4, h5, h6, h7, h8, h9, h10, h11, h12⟩ := hs
            exact ⟨h1, rfl, h3, h4, h5, h6, h7, h8, h9, h10, by simpa using h11,
              by simpa using h12⟩
          obtain ⟨ha, hb, hc⟩ := scenario_accept owner t _ hidle hw (le_of_lt hst)
            (fun _ => hst)
          exact ih _ s1 ha hb hc h1
        · cases h1
          exact ⟨hs, hw, hst⟩
      obtain ⟨⟨h1, h2, h3, h4, h5, h6, h7, h8, h9, h10, h11, h12⟩, kw, kst⟩ := key
      exact ⟨⟨h1, h2, h3, h4, h5, h6, h7, h8, h9, by simpa using h10, h11, h12⟩, kw, kst⟩
    · rw [tick_off_owner _ _ _ _ hself] at h
      cases h
      exact ⟨hs, hw, hst⟩

theorem add_threads (reexec : sync_s → Bool) (self : ThreadId) (clock : List Nat)
    (task : TaskId) (s s' : State) (h : add reexec self clock task s = some s') :
    s'.threads_started = s.threads_started ∧ s'.threads_ended = s.threads_ended := by
  refine add_inv
    (fun x => x.threads_started = s.threads_started ∧ x.threads_ended = s.threads_ended)
    reexec self ?_ ?_ ?_ ?_ ?_ clock task s s' ⟨rfl, rfl⟩ h
  · intro now x hx
    obtain ⟨-, -, -, -, ⟨-, h1, h2⟩, -⟩ := tick_drain_ctl now x
    exact ⟨h1.trans hx.1, h2.trans hx.2⟩
  · intro x t rest hx _
    exact hx
  · intro t x hx
    exact hx
  · intro t x hx
    unfold add_accept check_worker
    dsimp only
    split_ifs <;> exact hx
  · intro x n hx
    exact hx

theorem scenario_add (reexec : sync_s → Bool) (g_cpu_cores : Int) (owner self : ThreadId)
    (clock : List Nat) (t : TaskId) (s1 : State)
    (h : add reexec self clock t (task_executor_c g_cpu_cores owner) = some s1) :
    ScenarioA owner t [t] [] [] s1 ∧ s1.threads_ended ≤ s1.threads_started ∧
      s1.threads_started < s1.threads_created := by
  obtain ⟨ht1, ht2⟩ := add_threads reexec self clock t _ s1 h
  have hle : s1.threads_ended ≤ s1.threads_started := by
    rw [ht1, ht2]
    exact le_refl _
  have h0 : ScenarioA owner t [] [] [] (task_executor_c g_cpu_cores owner) := by
    refine ⟨rfl, rfl, rfl, rfl, rfl, rfl, rfl, rfl, ?_, by simp [task_executor_c], ?_, ?_⟩
    · exact constructor_maximum_workers_pos g_cpu_cores owner
    · simp [task_executor_c]
    · simp [task_executor_c]
  unfold add add_body at h
  rw [if_neg (by simp [task_executor_c])] at h
  obtain ⟨ha, hb, hc⟩ := scenario_accept owner t _ h0 rfl (le_refl _) (fun h => by cases h)
  obtain ⟨k1, -, k3⟩ := scenario_tick reexec self owner t clock _ s1 ha hb hc h
  exact ⟨k1, hle, k3⟩

theorem scenario_begin (reexec : sync_s → Bool) (rc : result_codes) (owner : ThreadId)
    (t : TaskId) (s : State) (h : ScenarioA owner t [t] [] [] s)
    (hle : s.threads_ended ≤ s.threads_started)
    (hst : s.threads_started < s.threads_created) :
    ∃ s', step reexec rc s Action.work_begin = some s' ∧ ScenarioA owner t [t] [] [] s' ∧
      s'.threads_ended < s'.threads_started := by
  refine ⟨work_begin s, by simp [step, hst], ?_, Nat.lt_succ_of_le hle⟩
  obtain ⟨h1, h2, h3, h4, h5, h6, h7, h8, h9, h10, h11, h12⟩ := h
  exact ⟨h1, h2, h3, h4, h5, h6, h7, h8, h9, h10, h11, h12⟩

theorem scenario_result (reexec : sync_s → Bool) (rc : result_codes) (hrc : rc.wf)
    (owner : ThreadId) (t : TaskId) (now : Nat) (res : List TaskId) (s : State)
    (hres : res = [] ∨ res = [t]) (h : ScenarioA owner t [t] res [] s)
    (hw : s.threads_ended < s.threads_started) :
    ∃ s', step reexec rc s (Action.work_iteration rc.R_RESULT now) = some s' ∧
      ScenarioA owner t [t] [t] [] s' ∧ s'.threads_ended < s'.threads_started := by
  obtain ⟨-, -, hr, -, -, hr1, -, hr2, -, -⟩ := hrc
  obtain ⟨h1, h2, h3, h4, h5, h6, h7, h8, h9, h10, h11, h12⟩ := h
  refine ⟨work_body rc rc.R_RESULT now t { s with executing := [] }, ?_, ?_, ?_⟩
  · simp [step, hw, work_iteration, h2]
  · have hnpos : ¬ rc.R_RESULT > 0 := by omega
    unfold work_body call_iterate
    simp only [hnpos, if_false, Ne.symm hr1, Ne.symm hr2, if_true]
    rcases hres with rfl | rfl
    · have hf : is_flag (s.flags t) 8 = false := by simpa using h11
      refine ⟨by simpa [hf] using h1, by simp [hf], by simp [hf, h3], by simpa [hf] using h4,
        by simpa [hf] using h5, by simpa [hf] using h6, by simpa [hf] using h7,
        by simpa [hf] using h8, by simpa [hf] using h9, by simpa [hf] using h10,
        by simp [hf], by simpa [hf] using h12⟩
    · have hf : is_flag (s.flags t) 8 = true := by simpa using h11
      refine ⟨by simpa [hf] using h1, by simp [hf], by simp [hf, h3], by simpa [hf] using h4,
        by simpa [hf] using h5, by simpa [hf] using h6, by simpa [hf] using h7,
        by simpa [hf] using h8, by simpa [hf] using h9, by simpa [hf] using h10,
        by simp [hf], by simpa [hf] using h12⟩
  · obtain ⟨-, -, -, -, -, f6, f7, -⟩ := work_body_frame rc rc.R_RESULT now t
      { s with executing := [] }
    rw [f6, f7]
    exact hw

theorem scenario_results (reexec : sync_s → Bool) (rc : result_codes) (hrc : rc.wf)
    (owner : ThreadId) (t : TaskId) (now : Nat) :
    ∀ (n : Nat) (s : State), ScenarioA owner t [t] [t] [] s →
      s.threads_ended < s.threads_started →
      ∃ s', run reexec rc s (List.replicate n (Action.work_iteration rc.R_RESULT now)) =
          some s' ∧ ScenarioA owner t [t] [t] [] s' ∧
          s'.threads_ended < s'.threads_started := by
  intro n
  induction n with
  | zero => intro s h hw; exact ⟨s, rfl, h, hw⟩
  | succ n ih =>
    intro s h hw
    obtain ⟨s1, e1, a1, w1⟩ := scenario_result reexec rc hrc owner t now [t] s (Or.inr rfl) h hw
    obtain ⟨s2, e2, a2, w2⟩ := ih s1 a1 w1
    exact ⟨s2, by simp [List.replicate_succ, run, e1, e2], a2, w2⟩

theorem scenario_done (reexec : sync_s → Bool) (rc : result_codes) (hrc : rc.wf)
    (owner : ThreadId) (t : TaskId) (now : Nat) (s : State)
    (h : ScenarioA owner t [t] [t] [] s) (hw : s.threads_ended < s.threads_started) :
    ∃ s', step reexec rc s (Action.work_iteration rc.R_DONE now) = some s' ∧
      ScenarioA owner t [] [t] [t] s' := by
  obtain ⟨hd, -⟩ := hrc
  obtain ⟨h1, h2, h3, h4, h5, h6, h7, h8, h9, h10, h11, h12⟩ := h
  refine ⟨work_body rc rc.R_DONE now t { s with executing := [] }, ?_, ?_⟩
  · simp [step, hw, work_iteration, h2]
  · have hnpos : ¬ rc.R_DONE > 0 := by omega
    unfold work_body call_iterate
    simp only [hnpos, if_false, if_true]
    exact ⟨by simpa using h1, by simp, by simpa using h3, by simp [h4], by simpa using h5,
      by simpa using h6, by simpa using h7, by simpa using h8, by simpa using h9,
      by simpa using h10, by simpa using h11, by simpa using h12⟩

theorem scenario_final_tick (reexec : sync_s → Bool) (owner : ThreadId) (t : TaskId)
    (now : Nat) (clock : List Nat) (s : State) (h : ScenarioA owner t [] [t] [t] s) :
    ∃ s', tick reexec owner (now :: clock) s = some s' ∧
      s'.log = [Callback.result t, Callback.done t false] := by
  obtain ⟨h1, h2, h3, h4, h5, h6, h7, h8, h9, h10, h11, h12⟩ := h
  subst h1
  have hlog := tick_drain_log now s
  rw [h3, h4, h5, h7] at hlog
  have hex : (tick_drain now s).1.executing = [] := by
    have hf : is_flag (s.flags t) 16 = false := by simpa using h12
    simp [tick_drain, tick_results, tick_finished, tick_canceled, tick_sleeping, h2, h3, h4, h5,
      h6, tick_results_body, tick_finished_body, hf]
  rw [tick_owner_cons, hex]
  refine ⟨sub_tasks (tick_drain now s).1 (tick_drain now s).2, ?_, ?_⟩
  · split_ifs <;> rfl
  · simpa using hlog

/-- C4 (scenario A, for every N ≥ 1): a task is submitted to a fresh
executor and the call returns; a worker starts, the task's step returns
`R_RESULT` N times and then `R_DONE`, with no drain in between.  These
steps can be taken and invoke no callback, and the next `tick` on the
owner thread returns having invoked exactly `result` on the task followed
by `done(false)` on the task. -/
theorem C4_scenario_A (reexec : sync_s → Bool) (rc : result_codes) (hrc : rc.wf)
    (g_cpu_cores : Int) (owner self : ThreadId) (clock : List Nat) (t : TaskId) (N : Nat)
    (hN : 1 ≤ N) (now nowD : Nat) (s1 : State)
    (hadd : add reexec self clock t (task_executor_c g_cpu_cores owner) = some s1) :
    ∃ s2, run reexec rc s1 (Action.work_begin ::
        (List.replicate N (Action.work_iteration rc.R_RESULT now) ++
          [Action.work_iteration rc.R_DONE nowD])) = some s2 ∧
      s1.log = [] ∧ s2.log = [] ∧
      ∀ (now' : Nat) (clock' : List Nat), ∃ s3,
        tick reexec owner (now' :: clock') s2 = some s3 ∧
        s3.log = [Callback.result t, Callback.done t false] := by
  obtain ⟨n, rfl⟩ : ∃ n, N = n + 1 := ⟨N - 1, by omega⟩
  obtain ⟨ha, hw, hst⟩ := scenario_add reexec g_cpu_cores owner self clock t s1 hadd
  obtain ⟨sb, eb, ab, wb⟩ := scenario_begin reexec rc owner t s1 ha hw hst
  obtain ⟨sr, er, ar, wr⟩ := scenario_result reexec rc hrc owner t now [] sb (Or.inl rfl) ab wb
  obtain ⟨sn, en, an, wn⟩ := scenario_results reexec rc hrc owner t now n sr ar wr
  obtain ⟨sd, ed, ad⟩ := scenario_done reexec rc hrc owner t nowD sn an wn
  refine ⟨sd, ?_, ha.log, ad.log, ?_⟩
  · simp [run, eb, List.replicate_succ, er, run_append, en, ed]
  · intro now' clock'
    exact scenario_final_tick reexec owner t now' clock' sd ad

/-- Witness of C4 with N = 3 on a 4-core host. -/
theorem C4_scenario_A_witness :
    sample_codes.wf ∧ 1 ≤ 3 ∧
    add no_reexec 0 [0] 7 (task_executor_c 4 0) = some submitted_sample ∧
    ∃ s2, run no_reexec sample_codes submitted_sample (Action.work_begin ::
        (List.replicate 3 (Action.work_iteration sample_codes.R_RESULT 0) ++
          [Action.work_iteration sample_codes.R_DONE 0])) = some s2 ∧
      submitted_sample.log = [] ∧ s2.log = [] ∧
      ∀ (now' : Nat) (clock' : List Nat), ∃ s3,
        tick no_reexec 0 (now' :: clock') s2 = some s3 ∧
        s3.log = [Callback.result 7, Callback.done 7 false] :=
  ⟨by decide, by decide, rfl,
    C4_scenario_A no_reexec sample_codes (by decide) 4 0 0 [0] 7 3 (by decide) 0 0
      submitted_sample rfl⟩

/-! ## Witnesses of the invariants -/

/-- Witness of C3 at a state in which a result has been signalled twice:
task 7 is submitted, a worker starts and the task's step returns `R_RESULT`
two times with no drain in between.  The second signal finds `f_result` set
and adds no entry: `results` is `[7]`, the flag is set, and task 8, which was
never submitted, has no entry and a clear flag. -/
theorem C3_results_dedup_witness :
    run no_reexec sample_codes (task_executor_c 4 0)
        [Action.add 0 [0] 7, Action.work_begin, Action.work_iteration (-2) 0,
          Action.work_iteration (-2) 0] = some result_twice_sample ∧
    result_twice_sample.results = [7] ∧ result_twice_sample.executing = [7] ∧
    result_twice_sample.iterated = [7, 7] ∧
    is_flag (result_twice_sample.flags 7) f_result = true ∧
    (result_twice_sample.results.count 7 ≤ 1 ∧
      (7 ∈ result_twice_sample.results ↔
        is_flag (result_twice_sample.flags 7) f_result = true)) ∧
    (result_twice_sample.results.count 8 ≤ 1 ∧
      (8 ∈ result_twice_sample.results ↔
        is_flag (result_twice_sample.flags 8) f_result = true)) :=
  ⟨rfl, rfl, rfl, rfl, rfl,
    C3_results_dedup no_reexec sample_codes result_twice_sample
      ⟨4, 0, [Action.add 0 [0] 7, Action.work_begin, Action.work_iteration (-2) 0,
        Action.work_iteration (-2) 0], rfl⟩ 7,
    C3_results_dedup no_reexec sample_codes result_twice_sample
      ⟨4, 0, [Action.add 0 [0] 7, Action.work_begin, Action.work_iteration (-2) 0,
        Action.work_iteration (-2) 0], rfl⟩ 8⟩

/-- Witness of C6 on a 4-core host: the bound is 3, and after one submit one
thread is created and not yet started, no worker is live, and the bound
holds. -/
theorem C6_worker_bound_witness :
    (-2 ^ 31 < (4 : Int) ∧ (4 : Int) < 2 ^ 31) ∧
    run no_reexec sample_codes (task_executor_c 4 0) [Action.add 0 [0] 7] =
      some submitted_sample ∧
    (task_executor_c 4 0).maximum_workers = 3 ∧
    submitted_sample.threads_created = 1 ∧ submitted_sample.sync.worker_started = true ∧
    (submitted_sample.maximum_workers = (task_executor_c 4 0).maximum_workers ∧
      submitted_sample.threads_created =
        submitted_sample.threads_started +
          (if submitted_sample.sync.worker_started = true then 1 else 0) ∧
      submitted_sample.threads_ended ≤ submitted_sample.threads_started ∧
      submitted_sample.sync.workers =
        (submitted_sample.threads_started : Int) - (submitted_sample.threads_ended : Int) ∧
      submitted_sample.sync.workers +
          (if submitted_sample.sync.worker_started = true then 1 else 0) ≤
        submitted_sample.maximum_workers) :=
  ⟨⟨by decide, by decide⟩, rfl,
    (C6_worker_bound no_reexec sample_codes 4 0).1 (by decide) (by decide), rfl, rfl,
    (C6_worker_bound no_reexec sample_codes 4 0).2 [Action.add 0 [0] 7] submitted_sample rfl⟩

/-! ## Spawn check, stage flags and the sleep deadline -/

/-- C15 (spawn check): `check_worker` creates exactly one thread and marks
the spawn as in flight if and only if a spawn is requested, the worker count
is strictly below `min(maximum_workers, tasks)` and no spawn is in flight.
When that condition holds, one thread is created and `worker_started` is set;
when it does not hold, no thread is created and `worker_started` is left as
it was.  In both cases `workers`, `tasks`, the stop flag, `maximum_workers`,
the queues, the flag words and the callback trace are unchanged and
`worker_must` is cleared. -/
theorem C15_check_worker (s : State) :
    ((check_worker s).threads_created = s.threads_created + 1 ∧
        (check_worker s).sync.worker_started = true ↔
      (s.sync.worker_must = true ∧ s.sync.workers < min s.maximum_workers s.sync.tasks ∧
        s.sync.worker_started = false)) ∧
    ((s.sync.worker_must = true ∧ s.sync.workers < min s.maximum_workers s.sync.tasks ∧
        s.sync.worker_started = false) →
      (check_worker s).threads_created = s.threads_created + 1 ∧
        (check_worker s).sync.worker_started = true) ∧
    (¬ (s.sync.worker_must = true ∧ s.sync.workers < min s.maximum_workers s.sync.tasks ∧
        s.sync.worker_started = false) →
      (check_worker s).threads_created = s.threads_created ∧
        (check_worker s).sync.worker_started = s.sync.worker_started) ∧
    (check_worker s).sync.workers = s.sync.workers ∧
    (check_worker s).sync.tasks = s.sync.tasks ∧
    (check_worker s).sync.worker_should_stop = s.sync.worker_should_stop ∧
    (check_worker s).sync.worker_must = false ∧
    (check_worker s).maximum_workers = s.maximum_workers ∧
    (check_worker s).threads_started = s.threads_started ∧
    (check_worker s).executing = s.executing ∧ (check_worker s).sleeping = s.sleeping ∧
    (check_worker s).finished = s.finished ∧ (check_worker s).canceled = s.canceled ∧
    (check_worker s).results = s.results ∧ (check_worker s).flags = s.flags ∧
    (check_worker s).log = s.log := by
  unfold check_worker
  by_cases hc : s.sync.worker_must = true ∧
      s.sync.workers < min s.maximum_workers s.sync.tasks ∧ s.sync.worker_started = false
  · rw [if_pos hc]
    exact ⟨⟨fun _ => hc, fun _ => ⟨rfl, rfl⟩⟩, fun _ => ⟨rfl, rfl⟩, fun h => absurd hc h,
      rfl, rfl, rfl, rfl, rfl, rfl, rfl, rfl, rfl, rfl, rfl, rfl, rfl⟩
  · rw [if_neg hc]
    exact ⟨⟨fun h => absurd h.1 (by simp), fun h => absurd h hc⟩, fun h => absurd h hc,
      fun _ => ⟨rfl, rfl⟩, rfl, rfl, rfl, rfl, rfl, rfl, rfl, rfl, rfl, rfl, rfl, rfl, rfl⟩

/-- Witness of C15 on both branches: right after a submit a thread has been
created and `worker_started` is set, so a second `check_worker` with a spawn
requested creates none and leaves `worker_started` set; on a fresh executor
with a spawn requested and one task counted it creates one. -/
theorem C15_check_worker_witness :
    ((check_worker spawn_pending_sample).threads_created =
        spawn_pending_sample.threads_created ∧
      (check_worker spawn_pending_sample).sync.worker_started = true ∧
      spawn_pending_sample.sync.worker_started = true ∧
      (check_worker spawn_pending_sample).sync.worker_must = false) ∧
    ((check_worker spawn_requested_sample).threads_created =
        spawn_requested_sample.threads_created + 1 ∧
      (check_worker spawn_requested_sample).sync.worker_started = true ∧
      spawn_requested_sample.sync.worker_started = false) :=
  ⟨⟨((C15_check_worker spawn_pending_sample).2.2.1 (by decide)).1,
      rfl, rfl, (C15_check_worker spawn_pending_sample).2.2.2.2.2.2.1⟩,
    ⟨((C15_check_worker spawn_requested_sample).2.1 (by decide)).1,
      ((C15_check_worker spawn_requested_sample).2.1 (by decide)).2, rfl⟩⟩

/-- C18 (queue membership implies the stage flag) fails on the code: task 7
has a result pending from `R_RESULT` when its next step returns
`R_RESULT_EXCLUSIVE`.  The worker cleared `f_executing` when it popped the
task and the branch taken pushes it back to `executing` without setting the
flag again: the task is in `executing` with flag word 8 (`f_result` only). -/
theorem C18_executing_without_flag :
    exclusive_after_result_sample.map (fun s =>
        (s.executing, s.flags 7, is_flag (s.flags 7) f_executing)) =
      some ([7], 8, false) :=
  rfl

/-- C12 (sleep lower bound) fails on the code: at clock reading 2147483638
task 7 asks for a sleep of 100 ms; the deadline `2147483738` does not fit the
signed 32-bit `__wake_up_time` and is stored as `-2147483558`.  The drain
one millisecond later reads 2147483639, finds `curtime >= __wake_up_time`
and moves the task to `executing`, 99 ms early. -/
theorem C12_sleep_wakes_early :
    sleep_near_wrap_sample.map (fun s =>
        (s.sleeping, s.executing, s.wake_up_time 7)) =
      some ([7], [], -2147483558) ∧
    (sleep_near_wrap_sample.bind (tick no_reexec 0 [2147483639])).map (fun s =>
        (s.sleeping, s.executing)) = some ([], [7]) ∧
    (2147483639 : Nat) < 2147483638 + 100 :=
  ⟨rfl, rfl, by decide⟩

/-! ## The sleeping pass in closed form -/

theorem to_int32_of_small (n : Int) (h0 : 0 ≤ n) (h1 : n < 2 ^ 31) : to_int32 n = n := by
  unfold to_int32
  rw [Int.emod_eq_of_lt (by omega) (by omega)]
  omega

/-- Away from the end of the signed 32-bit range the deadline test of the
sleeping pass is the comparison of the clock readings themselves. -/
theorem sleep_due_no_wrap (t0 t1 : Nat) (N : Int) (hN : 0 < N) (h0 : (t0 : Int) + N < 2 ^ 31)
    (h1 : (t1 : Int) < 2 ^ 31) :
    to_int32 t1 ≥ setup_wakeup t0 N ↔ (t0 : Int) + N ≤ t1 := by
  unfold setup_wakeup
  rw [to_int32_of_small _ (by omega) h1, to_int32_of_small _ (by omega) h0]

theorem sleeping_loop_queues (curtime : Int) :
    ∀ (l : List TaskId) (p : State × List TaskId),
      (l.foldl (tick_sleeping_body curtime) p).1.executing =
          p.1.executing ++ l.filter (is_due curtime p.1.wake_up_time) ∧
      (l.foldl (tick_sleeping_body curtime) p).2 =
          p.2 ++ l.filter (fun t => !is_due curtime p.1.wake_up_time t) ∧
      (l.foldl (tick_sleeping_body curtime) p).1.sleeping = p.1.sleeping ∧
      (l.foldl (tick_sleeping_body curtime) p).1.wake_up_time = p.1.wake_up_time := by
  intro l
  induction l with
  | nil => intro p; simp
  | cons t l ih =>
    intro p
    rw [List.foldl_cons]
    obtain ⟨h1, h2, h3, h4⟩ := ih (tick_sleeping_body curtime p t)
    rw [h1, h2, h3, h4]
    dsimp only [tick_sleeping_body]
    by_cases hd : curtime ≥ p.1.wake_up_time t
    · rw [if_pos (by simpa using hd)]
      simp [is_due, hd, List.filter_cons]
    · rw [if_neg (by simpa using hd)]
      simp [is_due, hd, List.filter_cons]

theorem sleeping_loop_flags (curtime : Int) (u : TaskId) :
    ∀ (l : List TaskId) (p : State × List TaskId),
      is_flag ((l.foldl (tick_sleeping_body curtime) p).1.flags u) f_sleeping =
          (is_flag (p.1.flags u) f_sleeping && !decide (u ∈ l)) ∧
      is_flag ((l.foldl (tick_sleeping_body curtime) p).1.flags u) f_executing =
          (is_flag (p.1.flags u) f_executing ||
            (decide (u ∈ l) && is_due curtime p.1.wake_up_time u)) := by
  intro l
  induction l with
  | nil => intro p; simp
  | cons t l ih =>
    intro p
    rw [List.foldl_cons]
    obtain ⟨h1, h2⟩ := ih (tick_sleeping_body curtime p t)
    rw [h1, h2]
    dsimp only [tick_sleeping_body]
    by_cases hd : curtime ≥ p.1.wake_up_time t
    · rw [if_pos (by simpa using hd)]
      by_cases hu : u = t
      · subst hu
        simp [is_due, hd]
      · simp [is_due, hu, Function.update_apply]
    · rw [if_neg (by simpa using hd)]
      by_cases hu : u = t
      · subst hu
        simp [is_due, hd]
      · simp [is_due, hu, Function.update_apply]

theorem sltasks_loop (u : TaskId) :
    ∀ (m : List TaskId) (a : State),
      (m.foldl tick_sltasks_body a).sleeping = a.sleeping ++ m ∧
      (m.foldl tick_sltasks_body a).executing = a.executing ∧
      is_flag ((m.foldl tick_sltasks_body a).flags u) f_sleeping =
          (is_flag (a.flags u) f_sleeping || decide (u ∈ m)) ∧
      is_flag ((m.foldl tick_sltasks_body a).flags u) f_executing =
          is_flag (a.flags u) f_executing := by
  intro m
  induction m with
  | nil => intro a; simp
  | cons x m ih =>
    intro a
    rw [List.foldl_cons]
    obtain ⟨h1, h2, h3, h4⟩ := ih (tick_sltasks_body a x)
    rw [h1, h2, h3, h4]
    by_cases hu : u = x
    · subst hu
      simp [tick_sltasks_body]
    · simp [tick_sltasks_body, hu, Function.update_apply, Bool.or_assoc]

theorem tick_sleeping_queues (curtime : Int) (s : State) :
    (tick_sleeping curtime s).sleeping =
        s.sleeping.filter (fun t => !is_due curtime s.wake_up_time t) ∧
    (tick_sleeping curtime s).executing =
        s.executing ++ s.sleeping.filter (is_due curtime s.wake_up_time) := by
  unfold tick_sleeping
  dsimp only
  obtain ⟨h1, h2, h3, -⟩ := sleeping_loop_queues curtime s.sleeping ({ s with sleeping := [] }, [])
  obtain ⟨g1, g2, -, -⟩ := sltasks_loop 0
    (s.sleeping.foldl (tick_sleeping_body curtime) ({ s with sleeping := [] }, [])).2
    (s.sleeping.foldl (tick_sleeping_body curtime) ({ s with sleeping := [] }, [])).1
  rw [g1, g2, h1, h2, h3]
  simp

theorem tick_sleeping_flags (curtime : Int) (s : State) (u : TaskId) :
    is_flag ((tick_sleeping curtime s).flags u) f_sleeping =
        (if u ∈ s.sleeping then !is_due curtime s.wake_up_time u
          else is_flag (s.flags u) f_sleeping) ∧
    is_flag ((tick_sleeping curtime s).flags u) f_executing =
        (is_flag (s.flags u) f_executing ||
          (decide (u ∈ s.sleeping) && is_due curtime s.wake_up_time u)) := by
  unfold tick_sleeping
  dsimp only
  obtain ⟨-, h2, -, -⟩ := sleeping_loop_queues curtime s.sleeping ({ s with sleeping := [] }, [])
  obtain ⟨f1, f2⟩ := sleeping_loop_flags curtime u s.sleeping ({ s with sleeping := [] }, [])
  obtain ⟨-, -, g3, g4⟩ := sltasks_loop u
    (s.sleeping.foldl (tick_sleeping_body curtime) ({ s with sleeping := [] }, [])).2
    (s.sleeping.foldl (tick_sleeping_body curtime) ({ s with sleeping := [] }, [])).1
  rw [g3, g4, f1, f2, h2]
  constructor
  · by_cases hu : u ∈ s.sleeping
    · simp [hu, List.mem_filter]
    · simp [hu, List.mem_filter]
  · rfl

/-! ## The results loop in closed form -/

theorem resetflag_of_not_flag (g m : Nat) (h : is_flag g m = false) : resetflag g m = g := by
  have h0 : g &&& m = 0 := by
    simpa [is_flag] using h
  simp [resetflag, h0]

theorem result_delivered_idem (f : Nat) :
    result_delivered (result_delivered f) = result_delivered f := by
  unfold result_delivered
  by_cases h : is_flag f 16 = true
  · simp only [f_result, f_exec_after_result, f_executing, is_flag_resetflag_of_disjoint,
      flag_land, h, if_true]
    have h1 : is_flag (setflag (resetflag (resetflag f 8) 16) 1) 16 = false := by simp
    have h2 : is_flag (setflag (resetflag (resetflag f 8) 16) 1) 8 = false := by simp
    rw [h1]
    simp only [Bool.false_eq_true, if_false]
    exact resetflag_of_not_flag _ _ h2
  · have h' : is_flag f 16 = false := by simpa using h
    simp only [f_result, f_exec_after_result, f_executing, is_flag_resetflag_of_disjoint,
      flag_land, h', Bool.false_eq_true, if_false]
    exact resetflag_of_not_flag _ _ (by simp)

theorem tick_results_body_flags (a : State) (t u : TaskId) :
    (tick_results_body a t).flags u =
      if u = t then result_delivered (a.flags t) else a.flags u := by
  dsimp only [tick_results_body]
  unfold result_delivered
  by_cases hu : u = t
  · subst hu
    by_cases h : is_flag (resetflag (a.flags u) 8) 16 = true
    · simp [h]
    · simp [h]
  · by_cases h : is_flag (resetflag (a.flags t) 8) 16 = true
    · simp [h, hu, Function.update_apply]
    · simp [h, hu, Function.update_apply]

theorem results_loop_flags (u : TaskId) :
    ∀ (l : List TaskId) (a : State),
      (l.foldl tick_results_body a).flags u =
        if u ∈ l then result_delivered (a.flags u) else a.flags u := by
  intro l
  induction l with
  | nil => intro a; simp
  | cons t l ih =>
    intro a
    rw [List.foldl_cons, ih, tick_results_body_flags]
    by_cases hu : u = t
    · subst hu
      by_cases hl : u ∈ l
      · simp [hl, result_delivered_idem]
      · simp [hl]
    · by_cases hl : u ∈ l
      · simp [hl, hu]
      · simp [hl, hu]

theorem tick_results_body_executing (a : State) (t : TaskId) :
    (tick_results_body a t).executing =
      if is_flag (a.flags t) f_exec_after_result = true then a.executing ++ [t]
      else a.executing := by
  dsimp only [tick_results_body]
  by_cases h : is_flag (a.flags t) 16 = true
  · simp [h]
  · simp [h]

theorem results_loop_executing (u : TaskId) :
    ∀ (l : List TaskId) (a : State),
      (l.foldl tick_results_body a).executing.count u =
        a.executing.count u +
          (if u ∈ l ∧ is_flag (a.flags u) f_exec_after_result = true then 1 else 0) := by
  intro l
  induction l with
  | nil => intro a; simp
  | cons t l ih =>
    intro a
    rw [List.foldl_cons, ih, tick_results_body_executing, tick_results_body_flags]
    by_cases hu : u = t
    · subst hu
      have hd : is_flag (result_delivered (a.flags u)) 16 = false := by
        unfold result_delivered
        by_cases h : is_flag (a.flags u) 16 = true
        · simp [h]
        · simp [h]
      by_cases h : is_flag (a.flags u) 16 = true
      · simp [h, hd, List.count_append]
      · simp [h, hd]
    · by_cases h : is_flag (a.flags t) 16 = true
      · simp [h, hu, List.count_append, List.count_singleton, Ne.symm hu]
      · simp [h, hu]

theorem tick_results_flags_eq (s : State) (u : TaskId) :
    (tick_results s).flags u =
      if u ∈ s.results then result_delivered (s.flags u) else s.flags u := by
  unfold tick_results
  rw [results_loop_flags]

theorem tick_results_executing (s : State) (u : TaskId) :
    (tick_results s).executing.count u =
      s.executing.count u +
        (if u ∈ s.results ∧ is_flag (s.flags u) f_exec_after_result = true then 1 else 0) := by
  unfold tick_results
  rw [results_loop_executing]

theorem tick_drain_executing (now : Nat) (s : State) :
    (tick_drain now s).1.executing =
      (tick_results s).executing ++
        s.sleeping.filter (is_due (to_int32 now) s.wake_up_time) := by
  unfold tick_drain
  dsimp only
  rw [(tick_sleeping_queues _ _).2, (tick_canceled_queues _).2.2.2.2,
    (tick_canceled_queues _).2.2.2.1, (tick_finished_queues _).2.2.2.2,
    (tick_finished_queues _).2.2.2.1,
    (tick_canceled_ctl _).2.2.2.2.2, (tick_finished_ctl _).2.2.2.2.2]
  simp only [(tick_results_queues s).2.2.2, (tick_results_ctl s).2.2.2.2.2]

theorem tick_drain_sleeping (now : Nat) (s : State) :
    (tick_drain now s).1.sleeping =
      s.sleeping.filter (fun t => !is_due (to_int32 now) s.wake_up_time t) := by
  unfold tick_drain
  dsimp only
  rw [(tick_sleeping_queues _ _).1, (tick_canceled_queues _).2.2.2.1,
    (tick_finished_queues _).2.2.2.1,
    (tick_canceled_ctl _).2.2.2.2.2, (tick_finished_ctl _).2.2.2.2.2]
  simp only [(tick_results_queues s).2.2.2, (tick_results_ctl s).2.2.2.2.2]

theorem tick_drain_flag_sleeping (now : Nat) (s : State) (u : TaskId) :
    is_flag ((tick_drain now s).1.flags u) f_sleeping =
      (if u ∈ s.sleeping then !is_due (to_int32 now) s.wake_up_time u
        else is_flag (s.flags u) f_sleeping) := by
  unfold tick_drain
  dsimp only
  rw [(tick_sleeping_flags _ _ u).1, (tick_canceled_queues _).2.2.2.1,
    (tick_finished_queues _).2.2.2.1,
    (tick_canceled_ctl _).2.2.2.2.2, (tick_finished_ctl _).2.2.2.2.2,
    tick_canceled_flags _ u f_sleeping (by simp),
    tick_finished_flags _ u f_sleeping (by simp)]
  simp only [(tick_results_queues s).2.2.2, (tick_results_ctl s).2.2.2.2.2,
    tick_results_flags s u f_sleeping (by simp)]

theorem tick_drain_flag_executing (now : Nat) (s : State) (u : TaskId) :
    is_flag ((tick_drain now s).1.flags u) f_executing =
      (is_flag ((tick_results s).flags u) f_executing ||
        (decide (u ∈ s.sleeping) && is_due (to_int32 now) s.wake_up_time u)) := by
  unfold tick_drain
  dsimp only
  rw [(tick_sleeping_flags _ _ u).2, (tick_canceled_queues _).2.2.2.1,
    (tick_finished_queues _).2.2.2.1,
    (tick_canceled_ctl _).2.2.2.2.2, (tick_finished_ctl _).2.2.2.2.2,
    tick_canceled_flags _ u f_executing (by simp),
    tick_finished_flags _ u f_executing (by simp)]
  simp only [(tick_results_queues s).2.2.2, (tick_results_ctl s).2.2.2.2.2]

theorem tick_drain_flag_exclusive (now : Nat) (s : State) (u : TaskId) :
    is_flag ((tick_drain now s).1.flags u) f_exec_after_result =
      is_flag ((tick_results s).flags u) f_exec_after_result := by
  unfold tick_drain
  dsimp only
  rw [(tick_sleeping_frame _ _).2.2.2.2.2 u f_exec_after_result (by simp),
    tick_canceled_flags _ u f_exec_after_result (by simp),
    tick_finished_flags _ u f_exec_after_result (by simp)]

theorem result_delivered_flags (f : Nat) :
    is_flag (result_delivered f) f_result = false ∧
    is_flag (result_delivered f) f_exec_after_result = false ∧
    (is_flag f f_exec_after_result = true →
      is_flag (result_delivered f) f_executing = true) ∧
    (is_flag f f_exec_after_result = false → result_delivered f = resetflag f f_result) := by
  unfold result_delivered
  by_cases h : is_flag f 16 = true
  · simp [h]
  · simp [h]

theorem count_filter_split (p : TaskId → Bool) (u : TaskId) (l : List TaskId) :
    (l.filter (fun t => !p t)).count u + (l.filter p).count u = l.count u := by
  induction l with
  | nil => simp
  | cons t l ih =>
    by_cases hu : t = u
    · subst hu
      by_cases hp : p t = true
      · simp [List.filter_cons, hp, List.count_cons] at ih ⊢
        omega
      · simp [List.filter_cons, hp, List.count_cons] at ih ⊢
        omega
    · by_cases hp : p t = true
      · simp [List.filter_cons, hp, hu, List.count_cons] at ih ⊢
        omega
      · simp [List.filter_cons, hp, hu, List.count_cons] at ih ⊢
        omega

/-- The sleeping pass in terms of `curtime`, the clock reading as `tick`
holds it in an `int`: when the re-execute condition is false, `tick` on the
owner thread returns; the entries of `sleeping` with
`curtime >= __wake_up_time` are appended to `executing`, in order, with
`f_executing` set and `f_sleeping` clear; all the others, however many, are
back in `sleeping`, in order, with `f_sleeping` set; no deadline changes; and
for every task the entries in the new `sleeping` and the entries moved to
`executing` add up to its entries in the old `sleeping`. -/
theorem tick_sleeping_pass (reexec : sync_s → Bool) (now : Nat) (clock : List Nat) (s : State)
    (h : reexec s.sync = false) :
    ∃ s', tick reexec s.base_thread_id (now :: clock) s = some s' ∧
      s'.sleeping = s.sleeping.filter (fun t => !is_due (to_int32 now) s.wake_up_time t) ∧
      s'.executing = (tick_results s).executing ++
        s.sleeping.filter (is_due (to_int32 now) s.wake_up_time) ∧
      s'.wake_up_time = s.wake_up_time ∧
      (∀ t ∈ s.sleeping, to_int32 now ≥ s.wake_up_time t →
        t ∈ s'.executing ∧ t ∉ s'.sleeping ∧
        is_flag (s'.flags t) f_executing = true ∧ is_flag (s'.flags t) f_sleeping = false) ∧
      (∀ t ∈ s.sleeping, ¬ to_int32 now ≥ s.wake_up_time t →
        t ∈ s'.sleeping ∧ s'.sleeping.count t = s.sleeping.count t ∧
        t ∉ s.sleeping.filter (is_due (to_int32 now) s.wake_up_time) ∧
        is_flag (s'.flags t) f_sleeping = true) ∧
      (∀ t, s'.sleeping.count t +
          (s.sleeping.filter (is_due (to_int32 now) s.wake_up_time)).count t =
        s.sleeping.count t) := by
  refine ⟨_, tick_owner_no_reexec reexec now clock s h, ?_, ?_, ?_, ?_, ?_, ?_⟩
  · simpa using tick_drain_sleeping now s
  · simpa using tick_drain_executing now s
  · simpa using (tick_drain_ctl now s).2.2.2.2.2
  · intro t ht hd
    have hdue : is_due (to_int32 now) s.wake_up_time t = true := by simpa [is_due] using hd
    refine ⟨?_, ?_, ?_, ?_⟩
    · simp only [sub_tasks, tick_drain_executing]
      exact List.mem_append_right _ (List.mem_filter.mpr ⟨ht, hdue⟩)
    · simp only [sub_tasks, tick_drain_sleeping, List.mem_filter, hdue]
      simp
    · simp only [sub_tasks, tick_drain_flag_executing, hdue]
      simp [ht]
    · simp only [sub_tasks, tick_drain_flag_sleeping, hdue]
      simp [ht]
  · intro t ht hd
    have hdue : is_due (to_int32 now) s.wake_up_time t = false := by simpa [is_due] using hd
    refine ⟨?_, ?_, ?_, ?_⟩
    · simp only [sub_tasks, tick_drain_sleeping]
      exact List.mem_filter.mpr ⟨ht, by simp [hdue]⟩
    · simp only [sub_tasks, tick_drain_sleeping]
      exact List.count_filter (by simp [hdue])
    · simp [List.mem_filter, hdue]
    · simp only [sub_tasks, tick_drain_flag_sleeping, hdue]
      simp [ht]
  · intro t
    simp only [sub_tasks, tick_drain_sleeping]
    exact count_filter_split _ t s.sleeping

/-- C11 (sleeping drain preserves tasks) fails on the code: at clock reading
2147483548 task 7 asks for a sleep of 50 ms, so its deadline is 2147483598.
The drain at clock reading 2147483653, 55 ms past the deadline, holds the
reading in an `int`, where it is -2147483643, finds
`curtime >= __wake_up_time` false and puts the task back into `sleeping`:
the task is not in `executing` although `now >= wake_deadline`. -/
theorem C11_due_task_left_asleep :
    sleep_before_wrap_sample.map (fun s =>
        (s.sleeping, s.executing, s.wake_up_time 7)) =
      some ([7], [], 2147483598) ∧
    (sleep_before_wrap_sample.bind (tick no_reexec 0 [2147483653])).map (fun s =>
        (s.sleeping, s.executing, is_flag (s.flags 7) f_sleeping,
          is_flag (s.flags 7) f_executing)) = some ([7], [], true, false) ∧
    (2147483653 : Int) ≥ 2147483598 ∧ to_int32 2147483653 = -2147483643 :=
  ⟨rfl, rfl, by decide, by decide⟩

/-- C14 (result delivery in drain): when the re-execute condition is false,
`tick` on the owner thread returns; its first callbacks are `result`, once
for each entry of `results`; `results` is empty afterwards and the
`f_result` flag of those tasks is clear.  A task whose
`f_exec_after_result` flag was set has that flag cleared and `f_executing`
set, and the results loop adds exactly one entry for it to `executing`.  For
a task whose `f_exec_after_result` flag was not set the results loop adds no
entry to `executing` and changes nothing in its flag word but `f_result`.
The results loop leaves `sleeping`, `finished` and `canceled` as they were. -/
theorem C14_tick_results (reexec : sync_s → Bool) (now : Nat) (clock : List Nat) (s : State)
    (h : reexec s.sync = false) :
    ∃ s', tick reexec s.base_thread_id (now :: clock) s = some s' ∧
      s'.log = s.log ++ s.results.map Callback.result
        ++ s.finished.map (fun t => Callback.done t false)
        ++ s.canceled.map (fun t => Callback.done t true) ∧
      s'.results = [] ∧
      (∀ t ∈ s.results, is_flag (s'.flags t) f_result = false) ∧
      (∀ t ∈ s.results, is_flag (s.flags t) f_exec_after_result = true →
        is_flag (s'.flags t) f_exec_after_result = false ∧
        is_flag (s'.flags t) f_executing = true ∧
        (tick_results s).executing.count t = s.executing.count t + 1) ∧
      (∀ t ∈ s.results, is_flag (s.flags t) f_exec_after_result = false →
        (tick_results s).executing.count t = s.executing.count t ∧
        (tick_results s).flags t = resetflag (s.flags t) f_result) ∧
      (tick_results s).sleeping = s.sleeping ∧ (tick_results s).finished = s.finished ∧
      (tick_results s).canceled = s.canceled ∧
      (∀ t, s'.executing.count t =
        s.executing.count t +
          (if t ∈ s.results ∧ is_flag (s.flags t) f_exec_after_result = true then 1 else 0) +
          (s.sleeping.filter (is_due (to_int32 now) s.wake_up_time)).count t) := by
  refine ⟨_, tick_owner_no_reexec reexec now clock s h, ?_, ?_, ?_, ?_, ?_,
    (tick_results_queues s).2.2.2, (tick_results_queues s).2.1, (tick_results_queues s).2.2.1,
    ?_⟩
  · simpa using tick_drain_log now s
  · simpa using (tick_drain_queues now s).1
  · intro t ht
    have := tick_drain_flag_result now s t
    simpa [ht] using this
  · intro t ht hx
    obtain ⟨-, d2, d3, -⟩ := result_delivered_flags (s.flags t)
    refine ⟨?_, ?_, ?_⟩
    · simp only [sub_tasks]
      rw [tick_drain_flag_exclusive, tick_results_flags_eq, if_pos ht]
      exact d2
    · simp only [sub_tasks]
      rw [tick_drain_flag_executing, tick_results_flags_eq, if_pos ht, d3 hx]
      rfl
    · rw [tick_results_executing, if_pos ⟨ht, hx⟩]
  · intro t ht hx
    obtain ⟨-, -, -, d4⟩ := result_delivered_flags (s.flags t)
    refine ⟨?_, ?_⟩
    · rw [tick_results_executing,
        if_neg (fun hc => by rw [hx] at hc; exact absurd hc.2 (by simp))]
      rfl
    · rw [tick_results_flags_eq, if_pos ht]
      exact d4 hx
  · intro t
    simp only [sub_tasks, tick_drain_executing, List.count_append, tick_results_executing]

/-- Witness of C14: task 5 is held for an exclusive result, task 6 has an
ordinary result pending. -/
theorem C14_tick_results_witness :
    no_reexec results_sample.sync = false ∧
    ∃ s', tick no_reexec results_sample.base_thread_id (10 :: []) results_sample = some s' ∧
      s'.log = results_sample.log ++ results_sample.results.map Callback.result
        ++ results_sample.finished.map (fun t => Callback.done t false)
        ++ results_sample.canceled.map (fun t => Callback.done t true) ∧
      s'.results = [] ∧
      (∀ t ∈ results_sample.results, is_flag (s'.flags t) f_result = false) ∧
      (∀ t ∈ results_sample.results,
        is_flag (results_sample.flags t) f_exec_after_result = true →
        is_flag (s'.flags t) f_exec_after_result = false ∧
        is_flag (s'.flags t) f_executing = true ∧
        (tick_results results_sample).executing.count t =
          results_sample.executing.count t + 1) ∧
      (∀ t ∈ results_sample.results,
        is_flag (results_sample.flags t) f_exec_after_result = false →
        (tick_results results_sample).executing.count t = results_sample.executing.count t ∧
        (tick_results results_sample).flags t = resetflag (results_sample.flags t) f_result) ∧
      (tick_results results_sample).sleeping = results_sample.sleeping ∧
      (tick_results results_sample).finished = results_sample.finished ∧
      (tick_results results_sample).canceled = results_sample.canceled ∧
      (∀ t, s'.executing.count t =
        results_sample.executing.count t +
          (if t ∈ results_sample.results ∧
              is_flag (results_sample.flags t) f_exec_after_result = true then 1 else 0) +
          (results_sample.sleeping.filter
            (is_due (to_int32 10) results_sample.wake_up_time)).count t) :=
  ⟨rfl, C14_tick_results no_reexec 10 [] results_sample rfl⟩

/-! ## Exclusive hold -/

theorem tick_results_body_split (s : State) (t : TaskId) :
    tick_results_body s t = tick_results_resume (tick_results_deliver s t) t :=
  rfl

theorem tick_drain_split (now : Nat) (s : State) :
    tick_drain now s = tick_after_results now (tick_results s) :=
  rfl

theorem fine_run_append (reexec : sync_s → Bool) (rc : result_codes) (l1 l2 : List FineAction)
    (x : FineState) :
    fine_run reexec rc x (l1 ++ l2) =
      (fine_run reexec rc x l1).bind fun x1 => fine_run reexec rc x1 l2 := by
  induction l1 generalizing x with
  | nil => simp [fine_run]
  | cons a l1 ih =>
    simp only [List.cons_append, fine_run]
    cases fine_step reexec rc x a with
    | none => simp
    | some x1 => simp [ih]

theorem fine_run_cons (reexec : sync_s → Bool) (rc : result_codes) (x : FineState)
    (a : FineAction) (acts : List FineAction) :
    fine_run reexec rc x (a :: acts) =
      (fine_step reexec rc x a).bind fun x1 => fine_run reexec rc x1 acts :=
  rfl

theorem tick_results_body_results (a : State) (t : TaskId) (r : List TaskId) :
    { tick_results_body a t with results := r } = tick_results_body { a with results := r } t := by
  dsimp only [tick_results_body]
  by_cases h : is_flag ((invoke (task_resetflag a t f_result) (Callback.result t)).flags t)
      f_exec_after_result = true
  · rw [if_pos h, if_pos (show is_flag ((invoke (task_resetflag { a with results := r } t
      f_result) (Callback.result t)).flags t) f_exec_after_result = true from h)]
    rfl
  · rw [if_neg h, if_neg (show ¬ is_flag ((invoke (task_resetflag { a with results := r } t
      f_result) (Callback.result t)).flags t) f_exec_after_result = true from h)]
    rfl

theorem fine_results_loop (reexec : sync_s → Bool) (rc : result_codes) (frames : List Int) :
    ∀ (l : List TaskId) (a : State), a.results = l →
      fine_run reexec rc { s := a, owner := OwnerAt.results_test frames }
          (results_loop_steps l.length) =
        some { s := l.foldl tick_results_body { a with results := [] }
               owner := OwnerAt.results_test frames } := by
  intro l
  induction l with
  | nil =>
    intro a ha
    have : ({ a with results := [] } : State) = a := by
      cases a
      simp only at ha
      subst ha
      rfl
    simp [results_loop_steps, fine_run, this]
  | cons t l ih =>
    intro a ha
    simp only [List.length_cons, results_loop_steps, fine_run, fine_step, ha, Option.some_bind]
    rw [← tick_results_body_split]
    have hres : (tick_results_body { a with results := l } t).results = l := by
      dsimp only [tick_results_body]
      split <;> rfl
    rw [ih _ hres, tick_results_body_results]
    rfl

theorem results_loop_steps_by_owner : ∀ n, ∀ a ∈ results_loop_steps n, a.by_owner := by
  intro n
  induction n with
  | zero => simp [results_loop_steps]
  | succ n ihn =>
    intro a ha
    simp only [results_loop_steps, List.mem_cons] at ha
    rcases ha with rfl | rfl | ha
    · trivial
    · trivial
    · exact ihn a ha

theorem tick_steps_by_owner (n now : Nat) : ∀ a ∈ tick_steps n now, a.by_owner := by
  intro a ha
  unfold tick_steps at ha
  rcases List.mem_append.mp ha with ha | ha
  · exact results_loop_steps_by_owner n a ha
  · simp only [List.mem_cons, List.mem_singleton, List.not_mem_nil, or_false] at ha
    rcases ha with rfl | rfl <;> trivial

theorem fine_tick_steps (reexec : sync_s → Bool) (rc : result_codes) (now : Nat) (s : State)
    (frames : List Int) :
    fine_run reexec rc { s := s, owner := OwnerAt.results_test frames }
        (tick_steps s.results.length now) =
      fine_step reexec rc { s := tick_results s, owner := OwnerAt.results_done frames }
        (FineAction.finish now) := by
  have hloop : fine_run reexec rc { s := s, owner := OwnerAt.results_test frames }
      (results_loop_steps s.results.length) =
      some { s := tick_results s, owner := OwnerAt.results_test frames } :=
    fine_results_loop reexec rc frames s.results s rfl
  have hempty : (tick_results s).results = [] := (tick_results_queues s).1
  have hleave : fine_step reexec rc
      { s := tick_results s, owner := OwnerAt.results_test frames } FineAction.leave =
      some { s := tick_results s, owner := OwnerAt.results_done frames } := by
    simp [fine_step, hempty]
  unfold tick_steps
  rw [fine_run_append, hloop, Option.some_bind, fine_run_cons, hleave, Option.some_bind,
    fine_run_cons]
  cases fine_step reexec rc { s := tick_results s, owner := OwnerAt.results_done frames }
    (FineAction.finish now) <;> rfl

/-- The finer steps refine `tick`: whenever a call of `tick` on the owner
thread returns, the uninterrupted steps of the owner thread from the test of
the results loop reach the state `tick` returns, followed by the returns of
the enclosing calls. -/
theorem fine_tick_refines (reexec : sync_s → Bool) (rc : result_codes) :
    ∀ (clock : List Nat) (s s' : State) (frames : List Int),
      tick reexec s.base_thread_id clock s = some s' →
      ∃ acts : List FineAction, (∀ a ∈ acts, a.by_owner) ∧
        fine_run reexec rc { s := s, owner := OwnerAt.results_test frames } acts =
          some { s := frames.foldl sub_tasks s', owner := OwnerAt.outside } := by
  intro clock
  induction clock with
  | nil =>
    intro s s' frames h
    simp [tick] at h
  | cons now clock ih =>
    intro s s' frames h
    rw [tick_owner_cons, Option.map_eq_some'] at h
    obtain ⟨s1, h1, rfl⟩ := h
    have hsteps := fine_tick_steps reexec rc now s frames
    rw [tick_drain_split] at h1
    by_cases hre : reexec (tick_after_results now (tick_results s)).1.sync = true
    · rw [if_pos hre] at h1
      cases hq : (tick_after_results now (tick_results s)).1.executing with
      | nil =>
        rw [hq] at h1
        cases h1
        refine ⟨tick_steps s.results.length now, tick_steps_by_owner _ _, ?_⟩
        rw [hsteps]
        simp only [fine_step, hre, if_true, hq]
        rfl
      | cons t rest =>
        rw [hq] at h1
        dsimp only at h1
        unfold add_body at h1
        by_cases hst : (task_resetflag
            { (tick_after_results now (tick_results s)).1 with executing := rest } t
            f_executing).sync.worker_should_stop = true
        · rw [if_pos hst] at h1
          cases h1
          refine ⟨tick_steps s.results.length now, tick_steps_by_owner _ _, ?_⟩
          rw [hsteps]
          simp only [fine_step, hre, if_true, hq]
          rw [if_pos hst]
          rfl
        · rw [if_neg hst] at h1
          have hb : (add_accept t (task_resetflag
              { (tick_after_results now (tick_results s)).1 with executing := rest } t
              f_executing)).base_thread_id = s.base_thread_id := by
            rw [(add_accept_frame t _).2.1]
            exact (tick_drain_ctl now s).2.2.1
          rw [← hb] at h1
          obtain ⟨acts, hacts, hrun⟩ := ih _ s1
            ((tick_after_results now (tick_results s)).2 :: frames) h1
          refine ⟨tick_steps s.results.length now ++ acts, ?_, ?_⟩
          · intro a ha
            rcases List.mem_append.mp ha with ha | ha
            · exact tick_steps_by_owner _ _ a ha
            · exact hacts a ha
          · rw [fine_run_append, hsteps]
            simp only [fine_step, hre, if_true, hq]
            rw [if_neg hst]
            simp only [Option.some_bind]
            rw [hrun]
            rfl
    · rw [if_neg hre] at h1
      cases h1
      refine ⟨tick_steps s.results.length now, tick_steps_by_owner _ _, ?_⟩
      rw [hsteps]
      simp only [fine_step, hre]
      rfl

/-- Every step of whole calls is a sequence of steps of the finer
interleaving: the finer interleaving has every run that `run` has. -/
theorem fine_refines_step (reexec : sync_s → Bool) (rc : result_codes) (s s' : State)
    (a : Action) (h : step reexec rc s a = some s') :
    ∃ acts : List FineAction,
      fine_run reexec rc { s := s, owner := OwnerAt.outside } acts =
        some { s := s', owner := OwnerAt.outside } := by
  by_cases hoff : a.off_owner s.base_thread_id
  · refine ⟨[FineAction.other a], ?_⟩
    simp [fine_run, fine_step, hoff, h]
  · cases a with
    | add self clock task =>
      have hself : self = s.base_thread_id := by
        simpa [Action.off_owner] using hoff
      subst hself
      simp only [step, add, add_body] at h
      split at h
      · rename_i hstop
        cases h
        refine ⟨[FineAction.call_add task], ?_⟩
        simp [fine_run, fine_step, hstop]
      · rename_i hstop
        have hb : (add_accept task s).base_thread_id = s.base_thread_id :=
          (add_accept_frame task s).2.1
        rw [← hb] at h
        obtain ⟨acts, -, hrun⟩ := fine_tick_refines reexec rc clock _ s' [] h
        refine ⟨FineAction.call_add task :: acts, ?_⟩
        simp only [fine_run, fine_step, hstop, Option.some_bind]
        exact hrun
    | tick self clock =>
      have hself : self = s.base_thread_id := by
        simpa [Action.off_owner] using hoff
      subst hself
      simp only [step] at h
      obtain ⟨acts, -, hrun⟩ := fine_tick_refines reexec rc clock s s' [] h
      refine ⟨FineAction.call_tick :: acts, ?_⟩
      simp only [fine_run, fine_step, Option.some_bind]
      exact hrun
    | check_worker => exact absurd trivial hoff
    | work_begin => exact absurd trivial hoff
    | work_iteration r now => exact absurd trivial hoff
    | work_end => exact absurd trivial hoff

theorem add_accept_tasks (task : TaskId) (s : State) :
    (add_accept task s).sync.tasks = s.sync.tasks + 1 := by
  unfold add_accept check_worker
  dsimp only
  split_ifs <;> simp

theorem tick_returns_below (reexec : sync_s → Bool) (B : Int)
    (hB : ∀ w : sync_s, B ≤ w.tasks → reexec w = false) (self : ThreadId) :
    ∀ (clock : List Nat) (s : State), (B - s.sync.tasks).toNat < clock.length →
      ∃ s', tick reexec self clock s = some s' := by
  intro clock
  induction clock with
  | nil =>
    intro s hlen
    simp at hlen
  | cons now clock ih =>
    intro s hlen
    by_cases hself : self = s.base_thread_id
    · subst hself
      rw [tick_owner_cons]
      by_cases hre : reexec (tick_drain now s).1.sync = true
      · rw [if_pos hre]
        have hlt : s.sync.tasks < B := by
          by_contra hcon
          have := hB (tick_drain now s).1.sync (by rw [(tick_drain_ctl now s).1]; omega)
          rw [this] at hre
          cases hre
        cases hq : (tick_drain now s).1.executing with
        | nil => exact ⟨_, rfl⟩
        | cons t rest =>
          dsimp only
          unfold add_body
          by_cases hst : (task_resetflag { (tick_drain now s).1 with executing := rest } t
              f_executing).sync.worker_should_stop = true
          · rw [if_pos hst]
            exact ⟨_, rfl⟩
          · rw [if_neg hst]
            have key : ∀ (x : Option State) (f : State → State),
                (∃ s1, x = some s1) → ∃ s', x.map f = some s' := by
              rintro x f ⟨s1, rfl⟩
              exact ⟨_, rfl⟩
            apply key
            apply ih
            rw [add_accept_tasks]
            simp only [task_resetflag, (tick_drain_ctl now s).1]
            simp only [List.length_cons] at hlen
            omega
      · rw [if_neg hre]
        exact ⟨_, rfl⟩
    · exact ⟨s, tick_off_owner _ _ _ _ hself⟩

theorem tick_results_of_no_results (s : State) (h : s.results = []) :
    (tick_results s).executing = s.executing := by
  simp [tick_results, h]

/-- C16 as stated fails: tasks 7, 8 and 9 are queued and three tasks are
counted; the re-execute condition holds while fewer than 5 are counted.  One
call of `tick` on the owner thread pops task 7 and resubmits it, and the
`tick` run by that `add` pops task 8 and resubmits it: two tasks have moved
to the tail of `executing` and `tasks` has grown by two. -/
theorem C16_counterexample :
    three_queued_sample.map (fun s => (s.executing, s.sync.tasks)) = some ([7, 8, 9], 3) ∧
    (three_queued_sample.bind (tick (reexec_below 5) 0 [0, 0, 0])).map
      (fun s => (s.executing, s.sync.tasks)) = some ([9, 7, 8], 5) :=
  ⟨rfl, rfl⟩

/-- C16 (re-execute, amended): let the re-execute condition hold in a state
in which `tick` is called on the owner thread.  If `executing` is empty after
the queue passes, the call pops nothing and returns.  If it is `t :: rest`,
the call itself pops `t`, clears its `f_executing` flag and passes it to
`add` once; everything else the call does is done by that `add`.  With stop
requested, `add` rejects `t` with `done(true)` and the call returns.  With
stop not requested, `add` re-enqueues `t` and runs a `tick` of its own, to
which this statement applies again; if the condition no longer holds in the
state handed to that `tick`, the call returns having resubmitted exactly one
task: `executing` is `rest`, then `t`, then the sleepers that have become due
at the second clock reading, and `tasks` has grown by one, less the terminal
callbacks delivered. -/
theorem C16_reexec_once (reexec : sync_s → Bool) (now : Nat) (clock : List Nat)
    (s : State) (hre : reexec s.sync = true) :
    ((tick_drain now s).1.executing = [] →
      tick reexec s.base_thread_id (now :: clock) s =
        some (sub_tasks (tick_drain now s).1 (tick_drain now s).2)) ∧
    ∀ (t : TaskId) (rest : List TaskId), (tick_drain now s).1.executing = t :: rest →
      tick reexec s.base_thread_id (now :: clock) s =
        (add reexec s.base_thread_id clock t
          (task_resetflag { (tick_drain now s).1 with executing := rest } t f_executing)).map
          (fun s1 => sub_tasks s1 (tick_drain now s).2) ∧
      (s.sync.worker_should_stop = true →
        tick reexec s.base_thread_id (now :: clock) s =
          some (sub_tasks
            (add_reject t
              (task_resetflag { (tick_drain now s).1 with executing := rest } t f_executing))
            (tick_drain now s).2)) ∧
      (s.sync.worker_should_stop = false →
        tick reexec s.base_thread_id (now :: clock) s =
          (tick reexec s.base_thread_id clock (add_accept t (task_resetflag
            { (tick_drain now s).1 with executing := rest } t f_executing))).map
            (fun s1 => sub_tasks s1 (tick_drain now s).2) ∧
        ∀ (now2 : Nat) (clock2 : List Nat), clock = now2 :: clock2 →
          reexec (add_accept t (task_resetflag
            { (tick_drain now s).1 with executing := rest } t f_executing)).sync = false →
          ∃ s', tick reexec s.base_thread_id (now :: clock) s = some s' ∧
            s'.executing = rest ++ [t] ++
              (tick_drain now s).1.sleeping.filter (is_due (to_int32 now2) s.wake_up_time) ∧
            s'.sync.tasks =
              s.sync.tasks + 1 - ((s.finished.length : Int) + s.canceled.length)) := by
  have hre1 : reexec (tick_drain now s).1.sync = true := by
    rw [(tick_drain_ctl now s).1]
    exact hre
  refine ⟨?_, ?_⟩
  · intro hq
    rw [tick_owner_cons, if_pos hre1, hq]
    rfl
  intro t rest hq
  have hadd : tick reexec s.base_thread_id (now :: clock) s =
      (add reexec s.base_thread_id clock t
        (task_resetflag { (tick_drain now s).1 with executing := rest } t f_executing)).map
        (fun s1 => sub_tasks s1 (tick_drain now s).2) := by
    rw [tick_owner_cons, if_pos hre1, hq]
    rfl
  have hstopeq : (task_resetflag { (tick_drain now s).1 with executing := rest } t
      f_executing).sync.worker_should_stop = s.sync.worker_should_stop := by
    simp [(tick_drain_ctl now s).1]
  refine ⟨hadd, ?_, ?_⟩
  · intro hstop
    rw [hadd]
    unfold add add_body
    rw [if_pos (by rw [hstopeq]; exact hstop)]
    rfl
  intro hstop
  have hstep : tick reexec s.base_thread_id (now :: clock) s =
      (tick reexec s.base_thread_id clock (add_accept t (task_resetflag
        { (tick_drain now s).1 with executing := rest } t f_executing))).map
        (fun s1 => sub_tasks s1 (tick_drain now s).2) := by
    rw [hadd]
    unfold add add_body
    rw [if_neg (by rw [hstopeq, hstop]; simp)]
  refine ⟨hstep, ?_⟩
  intro now2 clock2 hclock hnext
  subst hclock
  obtain ⟨-, f2, -, -, f5, f6, -⟩ := add_accept_frame t
    (task_resetflag { (tick_drain now s).1 with executing := rest } t f_executing)
  obtain ⟨g1, g2, g3, g4⟩ := add_accept_queues t
    (task_resetflag { (tick_drain now s).1 with executing := rest } t f_executing)
  obtain ⟨q1, q2, q3⟩ := tick_drain_queues now s
  have hb : s.base_thread_id = (add_accept t (task_resetflag
      { (tick_drain now s).1 with executing := rest } t f_executing)).base_thread_id := by
    rw [f2]
    exact ((tick_drain_ctl now s).2.2.1).symm
  rw [hstep, hb, tick_owner_no_reexec reexec now2 clock2 _ hnext]
  refine ⟨_, rfl, ?_, ?_⟩
  · simp only [sub_tasks]
    rw [tick_drain_executing, tick_results_of_no_results _ (by rw [f5]; exact q1), f6, g1, g4]
    simp only [task_resetflag, (tick_drain_ctl now s).2.2.2.2.2]
  · simp only [sub_tasks]
    rw [(tick_drain_ctl now2 _).1, add_accept_tasks, tick_drain_count now2, g2, g3,
      tick_drain_count now s]
    simp only [task_resetflag, (tick_drain_ctl now s).1, q2, q3]
    simp

/-- Witness of C16 at the state of the counterexample: tasks 7, 8 and 9 are
queued and the condition holds while fewer than 5 tasks are counted.  The
call pops task 7 and passes it to `add`; the `tick` run by that `add` is in a
state in which the condition still holds, and the whole call ends with
`executing = [9, 7, 8]`. -/
theorem C16_reexec_once_witness :
    three_queued_sample = some three_queued_state ∧
    reexec_below 5 three_queued_state.sync = true ∧
    (tick_drain 0 three_queued_state).1.executing = 7 :: [8, 9] ∧
    reexec_below 5 (add_accept 7 (task_resetflag
      { (tick_drain 0 three_queued_state).1 with executing := [8, 9] } 7 f_executing)).sync =
        true ∧
    tick (reexec_below 5) three_queued_state.base_thread_id (0 :: [0, 0]) three_queued_state =
      (add (reexec_below 5) three_queued_state.base_thread_id [0, 0] 7
        (task_resetflag { (tick_drain 0 three_queued_state).1 with executing := [8, 9] } 7
          f_executing)).map
        (fun s1 => sub_tasks s1 (tick_drain 0 three_queued_state).2) ∧
    (tick (reexec_below 5) three_queued_state.base_thread_id (0 :: [0, 0])
      three_queued_state).map (fun s => s.executing) = some [9, 7, 8] :=
  ⟨rfl, rfl, rfl, rfl,
    ((C16_reexec_once (reexec_below 5) 0 [0, 0] three_queued_state rfl).2 7 [8, 9] rfl).1,
    rfl⟩

/-! ## Pending count -/

/-- C19 (pending count is exact) fails on the code: task 7 is the only task
ever submitted.  It is held for an exclusive result while the idle worker
leaves; the next `tick` on the owner thread resumes it and, the re-execute
condition holding, pops it and passes it to `add` again, which runs
`++tasks` a second time.  `tasks` is 2 with one task live, and once that task
has received `done(false)` and every queue is empty `tasks` is still 1. -/
theorem C19_pending_count_drifts :
    reexec_fired_sample.map (fun s =>
        (s.executing, s.sleeping, s.finished, s.canceled, s.results, s.log, s.sync.tasks)) =
      some ([7], [], [], [], [], [Callback.result 7], 2) ∧
    reexec_fired_done_sample.map (fun s =>
        (s.executing, s.sleeping, s.finished, s.canceled, s.results, s.log, s.sync.tasks)) =
      some ([], [], [], [], [], [Callback.result 7, Callback.done 7 false], 1) :=
  ⟨rfl, rfl⟩

/-! ## Placement invariant -/

theorem tick_inv_live (P : State → Prop) (reexec : sync_s → Bool) (self : ThreadId)
    (h_stop : ∀ s, P s → s.sync.worker_should_stop = false)
    (h_drain : ∀ now s, P s → P (tick_drain now s).1)
    (h_re : ∀ s t rest, P s → s.executing = t :: rest →
      P (add_accept t (task_resetflag { s with executing := rest } t f_executing)))
    (h_sub : ∀ s n, P s → P (sub_tasks s n)) :
    ∀ (clock : List Nat) (s s' : State), P s → tick reexec self clock s = some s' → P s' := by
  intro clock
  induction clock with
  | nil =>
    intro s s' hs h
    by_cases hself : self = s.base_thread_id
    · simp [tick, hself] at h
    · rw [tick_off_owner _ _ _ _ hself] at h
      cases h
      exact hs
  | cons now clock ih =>
    intro s s' hs h
    by_cases hself : self = s.base_thread_id
    · subst hself
      rw [tick_owner_cons, Option.map_eq_some'] at h
      obtain ⟨s1, h1, rfl⟩ := h
      apply h_sub
      have hd := h_drain now s hs
      split at h1
      · split at h1
        · rename_i t rest hex
          unfold add_body at h1
          rw [if_neg (by simpa using h_stop _ hd)] at h1
          exact ih _ s1 (h_re _ t rest hd hex) h1
        · cases h1
          exact hd
      · cases h1
        exact hd
    · rw [tick_off_owner _ _ _ _ hself] at h
      cases h
      exact hs

theorem placed_congr (S S' : TaskId → Prop) (s : State) (h : ∀ u, S u ↔ S' u)
    (hp : Placed S s) : Placed S' s := by
  obtain ⟨h1, h2, h3, h4, h5, h6⟩ := hp
  refine ⟨h1, h2, h3, fun u c hc => (h u).mp (h4 u c hc), fun u hu hn => h5 u ((h u).mpr hu) hn,
    fun u hu => h6 u ?_⟩
  rcases hu with hu | hu
  · exact Or.inl (fun hs => hu ((h u).mp hs))
  · exact Or.inr hu

theorem placed_of_frame (S : TaskId → Prop) (s s' : State)
    (h_stop : s'.sync.worker_should_stop = s.sync.worker_should_stop)
    (h_log : s'.log = s.log) (h_res : s'.results = s.results)
    (h_sl : s'.sleeping = s.sleeping) (h_fin : s'.finished = s.finished)
    (h_can : s'.canceled = s.canceled)
    (h_ex : ∀ u, s'.executing.count u = s.executing.count u)
    (h_f8 : ∀ u, is_flag (s'.flags u) f_result = is_flag (s.flags u) f_result)
    (h_f16 : ∀ u, is_flag (s'.flags u) f_exec_after_result =
      is_flag (s.flags u) f_exec_after_result)
    (hp : Placed S s) : Placed S s' := by
  obtain ⟨h1, h2, h3, h4, h5, h6⟩ := hp
  have hpl : ∀ u, places s' u = places s u := by
    intro u
    unfold places
    rw [h_ex, h_sl, h_fin, h_can, h_res, h_f16]
  refine ⟨by rw [h_stop]; exact h1, dedup_of_frame s s' h_res h_f8 h2, ?_, ?_, ?_, ?_⟩
  · intro u hu
    rw [h_f8]
    rw [h_f16] at hu
    exact h3 u hu
  · intro u c hc
    rw [h_log] at hc
    exact h4 u c hc
  · intro u hu hn
    rw [hpl]
    rw [h_log] at hn
    exact h5 u hu hn
  · intro u hu
    rw [hpl]
    rw [h_log] at hu
    exact h6 u hu

theorem placed_reexec (S : TaskId → Prop) (s : State) (t : TaskId) (rest : List TaskId)
    (hp : Placed S s) (hq : s.executing = t :: rest) :
    Placed S (add_accept t (task_resetflag { s with executing := rest } t f_executing)) := by
  obtain ⟨-, -, f3, -, f5, f6, f7⟩ := add_accept_frame t
    (task_resetflag { s with executing := rest } t f_executing)
  obtain ⟨g1, g2, g3, -⟩ := add_accept_queues t
    (task_resetflag { s with executing := rest } t f_executing)
  refine placed_of_frame S s _ f7 f3 f5 g1 g2 g3 ?_ ?_ ?_ hp
  · intro u
    rw [f6, hq]
    simp only [task_resetflag, List.count_append, List.count_cons, List.count_nil]
    omega
  · intro u
    rw [add_accept_flags]
    by_cases hu : u = t <;> simp [Function.update_apply, hu]
  · intro u
    rw [add_accept_flags]
    by_cases hu : u = t <;> simp [Function.update_apply, hu]

theorem placed_sub_tasks (S : TaskId → Prop) (s : State) (n : Int) (hp : Placed S s) :
    Placed S (sub_tasks s n) :=
  placed_of_frame S s _ rfl rfl rfl rfl rfl rfl (fun _ => rfl) (fun _ => rfl) (fun _ => rfl) hp

theorem placed_check_worker (S : TaskId → Prop) (s : State) (hp : Placed S s) :
    Placed S (check_worker s) := by
  have hq : (check_worker s).sleeping = s.sleeping ∧ (check_worker s).finished = s.finished ∧
      (check_worker s).canceled = s.canceled ∧
      (check_worker s).sync.worker_should_stop = s.sync.worker_should_stop := by
    unfold check_worker
    split_ifs <;> simp
  obtain ⟨f1, f2, f3, f4, -, -⟩ := check_worker_frame s
  exact placed_of_frame S s _ hq.2.2.2 f4 f2 hq.1 hq.2.1 hq.2.2.1 (fun u => by rw [f3])
    (fun u => by rw [f1]) (fun u => by rw [f1]) hp

theorem places_add_accept (t : TaskId) (s : State) (u : TaskId) :
    places (add_accept t s) u = places s u + (if u = t then 1 else 0) := by
  obtain ⟨-, -, -, -, f5, f6, -⟩ := add_accept_frame t s
  obtain ⟨g1, g2, g3, -⟩ := add_accept_queues t s
  have hf : is_flag ((add_accept t s).flags u) f_exec_after_result =
      is_flag (s.flags u) f_exec_after_result := by
    rw [add_accept_flags]
    by_cases hu : u = t <;> simp [Function.update_apply, hu]
  unfold places
  rw [f5, f6, g1, g2, g3, hf]
  by_cases hu : u = t
  · subst hu
    simp [List.count_append]
    omega
  · simp [List.count_append, List.count_singleton, hu, Ne.symm hu]

theorem add_accept_dedup (t : TaskId) (s : State) (h : Dedup s) : Dedup (add_accept t s) := by
  refine dedup_of_frame s _ (add_accept_frame t s).2.2.2.2.1 ?_ h
  intro u
  rw [add_accept_flags]
  by_cases hut : u = t <;> simp [Function.update_apply, hut]

theorem placed_add_new (S : TaskId → Prop) (s : State) (t : TaskId) (hp : Placed S s)
    (ht : ¬ S t) : Placed (fun u => u = t ∨ S u) (add_accept t s) := by
  obtain ⟨h1, h2, h3, h4, h5, h6⟩ := hp
  obtain ⟨-, -, f3, -, -, -, f7⟩ := add_accept_frame t s
  refine ⟨by rw [f7]; exact h1, add_accept_dedup t s h2, ?_, ?_, ?_, ?_⟩
  · intro u hu
    rw [add_accept_flags] at hu ⊢
    by_cases hut : u = t
    · subst hut
      simp only [Function.update_same] at hu ⊢
      have := h3 u (by simpa using hu)
      simpa using this
    · simp only [Function.update_apply, hut, if_false] at hu ⊢
      exact h3 u hu
  · intro u c hc
    rw [f3] at hc
    exact Or.inr (h4 u c hc)
  · intro u hu hn
    rw [f3] at hn
    rw [places_add_accept]
    by_cases hut : u = t
    · subst hut
      rw [h6 u (Or.inl ht)]
      simp
    · rcases hu with hu | hu
      · exact absurd hu hut
      · rw [h5 u hu hn]
        simp [hut]
  · intro u hu
    rw [f3] at hu
    rw [places_add_accept]
    have hut : u ≠ t := by
      rintro rfl
      rcases hu with hu | hu
      · exact hu (Or.inl rfl)
      · apply hu
        constructor
        · intro hc
          exact ht (h4 u true hc)
        · intro hc
          exact ht (h4 u false hc)
    have : ¬ S u ∨ ¬ no_done s.log u := by
      rcases hu with hu | hu
      · exact Or.inl (fun hs => hu (Or.inr hs))
      · exact Or.inr hu
    rw [h6 u this]
    simp [hut]

theorem tick_drain_dedup (now : Nat) (s : State) (h : Dedup s) : Dedup (tick_drain now s).1 := by
  intro u
  rw [(tick_drain_queues now s).1, tick_drain_flag_result]
  have := (h u).2
  simp only [f_result] at this ⊢
  by_cases hf : is_flag (s.flags u) 8 = true
  · simp [hf, this.mpr hf]
  · simp [hf]

theorem held_eq (s : State) (h : Dedup s) (u : TaskId) :
    (if is_flag (s.flags u) f_exec_after_result = true then s.results.count u else 0) =
      (if u ∈ s.results ∧ is_flag (s.flags u) f_exec_after_result = true then 1 else 0) := by
  obtain ⟨hc, -⟩ := h u
  by_cases hx : is_flag (s.flags u) f_exec_after_result = true
  · by_cases hm : u ∈ s.results
    · have := List.count_pos_iff.mpr hm
      rw [if_pos hx, if_pos ⟨hm, hx⟩]
      omega
    · rw [if_pos hx, if_neg (fun hh => hm hh.1), List.count_eq_zero_of_not_mem hm]
  · rw [if_neg hx, if_neg (fun hh => hx hh.2)]

theorem places_tick_drain (now : Nat) (s : State) (h : Dedup s) (u : TaskId) :
    places (tick_drain now s).1 u + s.finished.count u + s.canceled.count u = places s u := by
  obtain ⟨q1, q2, q3⟩ := tick_drain_queues now s
  have hsplit := count_filter_split (is_due (to_int32 now) s.wake_up_time) u s.sleeping
  have hheld := held_eq s h u
  unfold places at *
  rw [q1, q2, q3, tick_drain_executing, tick_drain_sleeping, List.count_append,
    tick_results_executing, hheld]
  simp only [List.count_nil, ite_self]
  omega

theorem placed_zero_or_one (S : TaskId → Prop) (s : State) (hp : Placed S s) (u : TaskId) :
    (places s u = 1 ∧ S u ∧ no_done s.log u) ∨ places s u = 0 := by
  by_cases h : S u ∧ no_done s.log u
  · exact Or.inl ⟨hp.live u h.1 h.2, h.1, h.2⟩
  · right
    apply hp.dead
    by_cases hs : S u
    · exact Or.inr (fun hn => h ⟨hs, hn⟩)
    · exact Or.inl hs

theorem placed_tick_drain (S : TaskId → Prop) (now : Nat) (s : State) (hp : Placed S s) :
    Placed S (tick_drain now s).1 := by
  have hpl := places_tick_drain now s hp.dedup
  have hlog := tick_drain_log now s
  have hmem : ∀ u c, Callback.done u c ∈ (tick_drain now s).1.log →
      Callback.done u c ∈ s.log ∨ u ∈ s.finished ∨ u ∈ s.canceled := by
    intro u c hc
    rw [hlog] at hc
    simp only [List.mem_append, List.mem_map] at hc
    rcases hc with ((hc | ⟨x, _, hx⟩) | ⟨x, hx, hxe⟩) | ⟨x, hx, hxe⟩
    · exact Or.inl hc
    · cases hx
    · cases hxe
      exact Or.inr (Or.inl hx)
    · cases hxe
      exact Or.inr (Or.inr hx)
  have hsub : ∀ c, c ∈ s.log → c ∈ (tick_drain now s).1.log := by
    intro c hc
    rw [hlog]
    simp only [List.mem_append]
    exact Or.inl (Or.inl (Or.inl hc))
  have hfin : ∀ u, u ∈ s.finished → Callback.done u false ∈ (tick_drain now s).1.log := by
    intro u hu
    rw [hlog]
    simp only [List.mem_append, List.mem_map]
    exact Or.inl (Or.inr ⟨u, hu, rfl⟩)
  have hcan : ∀ u, u ∈ s.canceled → Callback.done u true ∈ (tick_drain now s).1.log := by
    intro u hu
    rw [hlog]
    simp only [List.mem_append, List.mem_map]
    exact Or.inr ⟨u, hu, rfl⟩
  have hpos : ∀ u, u ∈ s.finished ∨ u ∈ s.canceled → 0 < places s u := by
    intro u hu
    unfold places
    rcases hu with hu | hu
    · have := List.count_pos_iff.mpr hu
      omega
    · have := List.count_pos_iff.mpr hu
      omega
  refine ⟨?_, tick_drain_dedup now s hp.dedup, ?_, ?_, ?_, ?_⟩
  · rw [(tick_drain_ctl now s).1]
    exact hp.stop
  · intro u hu
    rw [tick_drain_flag_exclusive, tick_results_flags_eq] at hu
    by_cases hm : u ∈ s.results
    · rw [if_pos hm, (result_delivered_flags (s.flags u)).2.1] at hu
      cases hu
    · rw [if_neg hm] at hu
      exact absurd ((hp.dedup u).2.mpr (hp.excl u hu)) hm
  · intro u c hc
    rcases hmem u c hc with h | h | h
    · exact hp.done_sub u c h
    · rcases placed_zero_or_one S s hp u with ⟨-, hs, -⟩ | h0
      · exact hs
      · have := hpos u (Or.inl h)
        omega
    · rcases placed_zero_or_one S s hp u with ⟨-, hs, -⟩ | h0
      · exact hs
      · have := hpos u (Or.inr h)
        omega
  · intro u hu hn
    have hn0 : no_done s.log u := ⟨fun hc => hn.1 (hsub _ hc), fun hc => hn.2 (hsub _ hc)⟩
    have h1 := hp.live u hu hn0
    have hf : s.finished.count u = 0 :=
      List.count_eq_zero_of_not_mem (fun hm => hn.2 (hfin u hm))
    have hc : s.canceled.count u = 0 :=
      List.count_eq_zero_of_not_mem (fun hm => hn.1 (hcan u hm))
    have := hpl u
    omega
  · intro u hu
    have hle := hpl u
    rcases placed_zero_or_one S s hp u with ⟨h1, hs, hn0⟩ | h0
    · rcases hu with hu | hu
      · exact absurd hs hu
      · have hd : u ∈ s.finished ∨ u ∈ s.canceled := by
          by_contra hno
          apply hu
          constructor
          · intro hc
            rcases hmem u true hc with h | h | h
            · exact hn0.1 h
            · exact hno (Or.inl h)
            · exact hno (Or.inr h)
          · intro hc
            rcases hmem u false hc with h | h | h
            · exact hn0.2 h
            · exact hno (Or.inl h)
            · exact hno (Or.inr h)
        rcases hd with hd | hd
        · have := List.count_pos_iff.mpr hd
          omega
        · have := List.count_pos_iff.mpr hd
          omega
    · omega

theorem work_body_places (rc : result_codes) (r : Int) (now : Nat) (t : TaskId)
    (rest : List TaskId) (s : State) (hd : Dedup s) (hq : s.executing = t :: rest)
    (h16 : is_flag (s.flags t) 16 = false) (u : TaskId) :
    places (work_body rc r now t { s with executing := rest }) u = places s u := by
  by_cases hu : u = t
  · subst hu
    have hres0 : is_flag (s.flags u) 8 = false → s.results.count u = 0 := by
      intro hf
      rw [List.count_eq_zero]
      intro hmem
      have := (hd u).2.mp hmem
      simp only [f_result] at this
      rw [hf] at this
      cases this
    unfold work_body call_iterate places
    rw [hq]
    dsimp only
    split_ifs <;> simp_all [List.count_append] <;> omega
  · obtain ⟨w1, w2, w3, w4, w5, w6⟩ :=
      work_body_other rc r now t { s with executing := rest } u hu
    unfold places
    rw [w1, w2, w3, w4, w5, w6, hq]
    simp [List.count_cons, Ne.symm hu]

theorem work_body_excl (rc : result_codes) (r : Int) (now : Nat) (t : TaskId)
    (rest : List TaskId) (s : State)
    (hx : ∀ u, is_flag (s.flags u) f_exec_after_result = true →
      is_flag (s.flags u) f_result = true) (u : TaskId)
    (h : is_flag ((work_body rc r now t { s with executing := rest }).flags u)
      f_exec_after_result = true) :
    is_flag ((work_body rc r now t { s with executing := rest }).flags u) f_result = true := by
  have hxu := hx u
  revert h
  unfold work_body call_iterate
  dsimp only
  by_cases hu : u = t
  · subst hu
    split_ifs <;> simp <;> intro h <;> simp_all
  · split_ifs <;> simp [Function.update_apply, hu] <;> exact hxu

theorem placed_work_body (S : TaskId → Prop) (rc : result_codes) (r : Int) (now : Nat)
    (t : TaskId) (rest : List TaskId) (s : State) (hp : Placed S s)
    (hq : s.executing = t :: rest) :
    Placed S (work_body rc r now t { s with executing := rest }) := by
  have hex : 0 < s.executing.count t := by
    rw [hq]
    simp
  have h1 : places s t = 1 := by
    rcases placed_zero_or_one S s hp t with ⟨h, -, -⟩ | h0
    · exact h
    · unfold places at h0
      omega
  have h16 : is_flag (s.flags t) 16 = false := by
    by_contra hcon
    have hx : is_flag (s.flags t) f_exec_after_result = true := by simpa using hcon
    have hm := (hp.dedup t).2.mpr (hp.excl t hx)
    have := List.count_pos_iff.mpr hm
    unfold places at h1
    rw [if_pos hx] at h1
    omega
  obtain ⟨f1, -, -, f4, -, -⟩ := work_body_frame rc r now t { s with executing := rest }
  have hpl := work_body_places rc r now t rest s hp.dedup hq h16
  refine ⟨?_, work_body_dedup rc r now t rest s hp.dedup, ?_, ?_, ?_, ?_⟩
  · rw [f1]
    exact hp.stop
  · intro u hu
    exact work_body_excl rc r now t rest s hp.excl u hu
  · intro u c hc
    rw [f4] at hc
    exact hp.done_sub u c hc
  · intro u hu hn
    rw [f4] at hn
    rw [hpl]
    exact hp.live u hu hn
  · intro u hu
    rw [f4] at hu
    rw [hpl]
    exact hp.dead u hu

theorem submitted_cons (a : Action) (acts : List Action) :
    submitted (a :: acts) = submitted [a] ++ submitted acts := by
  cases a <;> simp [submitted]

theorem placed_step (S : TaskId → Prop) (reexec : sync_s → Bool) (rc : result_codes)
    (s s' : State) (a : Action) (hp : Placed S s)
    (hnew : ∀ t, t ∈ submitted [a] → ¬ S t)
    (h : step reexec rc s a = some s') : Placed (fun u => u ∈ submitted [a] ∨ S u) s' := by
  have hsame : ∀ x : State, submitted [a] = [] → Placed S x →
      Placed (fun u => u ∈ submitted [a] ∨ S u) x := by
    intro x he hx
    refine placed_congr S _ x ?_ hx
    intro u
    rw [he]
    simp
  cases a with
  | add self clock t =>
    simp only [step, add, add_body] at h
    rw [if_neg (by simp [hp.stop])] at h
    have h0 := placed_add_new S s t hp (hnew t (by simp [submitted]))
    have h1 := tick_inv_live (Placed (fun u => u = t ∨ S u)) reexec self
      (fun x hx => hx.stop) (fun now x hx => placed_tick_drain _ now x hx)
      (fun x t' rest hx hq => placed_reexec _ x t' rest hx hq)
      (fun x n hx => placed_sub_tasks _ x n hx) clock _ s' h0 h
    refine placed_congr _ _ s' ?_ h1
    intro u
    simp [submitted]
  | tick self clock =>
    simp only [step] at h
    exact hsame s' rfl (tick_inv_live (Placed S) reexec self
      (fun x hx => hx.stop) (fun now x hx => placed_tick_drain _ now x hx)
      (fun x t' rest hx hq => placed_reexec _ x t' rest hx hq)
      (fun x n hx => placed_sub_tasks _ x n hx) clock s s' hp h)
  | check_worker =>
    simp only [step, Option.some.injEq] at h
    subst h
    exact hsame _ rfl (placed_check_worker S s hp)
  | work_begin =>
    simp only [step] at h
    split at h
    · cases h
      exact hsame _ rfl (placed_of_frame S s _ rfl rfl rfl rfl rfl rfl (fun _ => rfl)
        (fun _ => rfl) (fun _ => rfl) hp)
    · cases h
  | work_iteration r now =>
    simp only [step, work_iteration] at h
    split at h
    · split at h
      · cases h
      · rename_i t rest hq
        cases h
        exact hsame _ rfl (placed_work_body S rc r now t rest s hp hq)
    · cases h
  | work_end =>
    simp only [step] at h
    split at h
    · cases h
      exact hsame _ rfl (placed_of_frame S s _ rfl rfl rfl rfl rfl rfl (fun _ => rfl)
        (fun _ => rfl) (fun _ => rfl) hp)
    · cases h

theorem placed_run (reexec : sync_s → Bool) (rc : result_codes) :
    ∀ (acts : List Action) (S : TaskId → Prop) (s s' : State), Placed S s →
      (∀ t, t ∈ submitted acts → ¬ S t) → (submitted acts).Nodup →
      run reexec rc s acts = some s' → Placed (fun u => u ∈ submitted acts ∨ S u) s' := by
  intro acts
  induction acts with
  | nil =>
    intro S s s' hp _ _ h
    simp only [run, Option.some.injEq] at h
    subst h
    refine placed_congr S _ s ?_ hp
    intro u
    simp [submitted]
  | cons a acts ih =>
    intro S s s' hp hnew hnd h
    simp only [run] at h
    rw [Option.bind_eq_some] at h
    obtain ⟨s1, h1, h2⟩ := h
    rw [submitted_cons a acts] at hnew hnd
    have hp1 := placed_step S reexec rc s s1 a hp
      (fun t ht => hnew t (List.mem_append_left _ ht)) h1
    have hdis := List.nodup_append.mp hnd
    have hp2 := ih (fun u => u ∈ submitted [a] ∨ S u) s1 s' hp1
      (fun t ht hc => by
        rcases hc with hc | hc
        · exact hdis.2.2 hc ht
        · exact hnew t (List.mem_append_right _ ht) hc)
      hdis.2.1 h2
    refine placed_congr _ _ s' ?_ hp2
    intro u
    rw [submitted_cons a acts, List.mem_append]
    tauto

theorem placed_constructor (g_cpu_cores : Int) (owner : ThreadId) :
    Placed (fun _ => False) (task_executor_c g_cpu_cores owner) := by
  refine ⟨rfl, ?_, ?_, ?_, ?_, ?_⟩
  · intro u
    simp [task_executor_c]
  · intro u hu
    simp [task_executor_c] at hu
  · intro u c hc
    simp [task_executor_c] at hc
  · intro u hu
    exact absurd hu id
  · intro u _
    simp [places, task_executor_c]

/-- C13 (no task lost or duplicated): pairwise distinct tasks are submitted
once each to a fresh executor, interleaved with any worker steps, spawn
checks and drains.  In the state reached, every submitted task that has not
received `done` is in exactly one place: `places` counts one entry for it
among `executing`, `sleeping`, `finished`, `canceled` and, when it is held
for an exclusive result, `results`.  In particular, when a worker pops the
task for a step, no second entry of it is left in `executing`. -/
theorem C13_one_place (reexec : sync_s → Bool) (rc : result_codes) (g_cpu_cores : Int)
    (owner : ThreadId) (acts : List Action) (s : State) (hnd : (submitted acts).Nodup)
    (hrun : run reexec rc (task_executor_c g_cpu_cores owner) acts = some s)
    (t : TaskId) (ht : t ∈ submitted acts) (hlive : no_done s.log t) :
    places s t = 1 ∧
    s.executing.count t + s.sleeping.count t + s.finished.count t + s.canceled.count t +
      (if is_flag (s.flags t) f_exec_after_result = true then s.results.count t else 0) = 1 ∧
    ∀ rest, s.executing = t :: rest → t ∉ rest := by
  have hp := placed_run reexec rc acts (fun _ => False) _ s
    (placed_constructor g_cpu_cores owner) (fun _ _ hc => hc) hnd hrun
  have h1 : places s t = 1 := hp.live t (Or.inl ht) hlive
  refine ⟨h1, h1, ?_⟩
  intro rest hq hmem
  have := List.count_pos_iff.mpr hmem
  unfold places at h1
  rw [hq] at h1
  simp only [List.count_cons_self] at h1
  omega

/-- Witness of C13 at the state reached by submitting task 7. -/
theorem C13_one_place_witness :
    (submitted [Action.add 0 [0] 7]).Nodup ∧
    run no_reexec sample_codes (task_executor_c 4 0) [Action.add 0 [0] 7] =
      some submitted_sample ∧
    (7 : TaskId) ∈ submitted [Action.add 0 [0] 7] ∧ no_done submitted_sample.log 7 ∧
    places submitted_sample 7 = 1 ∧
    submitted_sample.executing.count 7 + submitted_sample.sleeping.count 7 +
      submitted_sample.finished.count 7 + submitted_sample.canceled.count 7 +
      (if is_flag (submitted_sample.flags 7) f_exec_after_result = true
        then submitted_sample.results.count 7 else 0) = 1 ∧
    ∀ rest, submitted_sample.executing = 7 :: rest → 7 ∉ rest :=
  ⟨by decide, rfl, by decide, by decide,
    C13_one_place no_reexec sample_codes 4 0 [Action.add 0 [0] 7] submitted_sample
      (by decide) rfl 7 (by decide) (by decide)⟩

end ts
